import Mathlib

/-!
Verification of the multi-agent-training orchestrator/executor core.

This file shallowly embeds the Python sources:
  * `agents/orchestrator_agent/domain/models.py` (Task, DAG, TaskStatus),
  * `agents/orchestrator_agent/services/repositories/postgres_dag_storage.py`
    (the relational storage contract, modelled as task rows plus a dependency
    table),
  * `agents/orchestrator_agent/services/task_dispatcher.py` (TaskDispatcher),
  * `agents/executor_agent/executor_agent.py` (handler registry and the
    handler-selection / failure path of the execution cycle),
  * `agents/executor_agent/services/generic_task_handler.py` (the filter and
    map branches of `_execute_transform_data_task`).

Conventions of the embedding:
  * Python `uuid.UUID` identifiers become `Nat`.
  * `datetime.now()` becomes an explicit `now : Nat` argument threaded into
    every operation that reads the clock.
  * Python `dict` (which preserves key-insertion order, and updates a value
    in place when an existing key is assigned) becomes an association list
    `List (Nat × α)` manipulated only through `dictInsert` / `dictLookup` /
    `dictModify`, which reproduce those semantics.
  * Python `set` (of which the source only uses `add`, `remove`, membership
    and iteration) becomes a duplicate-free `List Nat`; `set.remove` raises
    `KeyError` when the element is absent, which the embedding models with
    `Except String`.
  * Python exceptions propagating out of a method are modelled by the method
    returning `Except String`.
-/

namespace MultiAgent

/-- Embeds `TaskStatus` from `agents/orchestrator_agent/domain/models.py`. -/
inductive TaskStatus where
  | pending
  | ready
  | assigned
  | in_progress
  | completed
  | failed
  | cancelled
deriving DecidableEq, Repr

variable {κ : Type} [DecidableEq κ]

/-- Python-dict lookup: the value stored at key `k`, if any. -/
def dictLookup (k : κ) : List (κ × α) → Option α
  | [] => none
  | (k0, v0) :: rest => if k0 = k then some v0 else dictLookup k rest

/-- Python-dict assignment `d[k] = v`: updates the value in place when the
key is present (keeping its position), otherwise appends the new binding. -/
def dictInsert (k : κ) (v : α) : List (κ × α) → List (κ × α)
  | [] => [(k, v)]
  | (k0, v0) :: rest =>
      if k0 = k then (k, v) :: rest else (k0, v0) :: dictInsert k v rest

/-- Python-dict in-place mutation of the object stored at key `k`
(`d[k].mutate()`): applies `f` to the stored value when the key is present. -/
def dictModify (k : κ) (f : α → α) : List (κ × α) → List (κ × α)
  | [] => []
  | (k0, v0) :: rest =>
      if k0 = k then (k0, f v0) :: rest else (k0, v0) :: dictModify k f rest

/-- The keys of a Python dict, in iteration order. -/
def dictKeys (d : List (κ × α)) : List κ := d.map (fun kv => kv.1)

/-- The values of a Python dict, in iteration order (`d.values()`). -/
def dictValues (d : List (κ × α)) : List α := d.map (fun kv => kv.2)

/-- Python `set.add`: a no-op when the element is present. -/
def pysetAdd (s : List κ) (x : κ) : List κ :=
  if x ∈ s then s else s ++ [x]

/-- Python `set.remove`: raises `KeyError` when the element is absent. -/
def pysetRemove (s : List κ) (x : κ) : Except String (List κ) :=
  if x ∈ s then Except.ok (s.erase x) else Except.error "KeyError"

/-- Embeds the `Task` class of `models.py`.  Field defaults follow the
constructor defaults of `Task.__init__`; the constructor always creates the
dependency-tracking sets `_upstream_tasks` / `_downstream_tasks` empty. -/
structure Task where
  id : Nat
  name : String := ""
  description : String := ""
  task_type : String := "generic"
  parameters : List (String × String) := []
  estimated_complexity : Nat := 1
  required_capabilities : List String := []
  status : TaskStatus := TaskStatus.pending
  assigned_to : Option String := none
  created_at : Nat := 0
  updated_at : Nat := 0
  result : Option (List (String × String)) := none
  error : Option String := none
  timeout_seconds : Nat := 3600
  upstream_tasks : List Nat := []
  downstream_tasks : List Nat := []
deriving DecidableEq, Repr

/-- Embeds `Task.add_upstream_task`. -/
def Task.add_upstream_task (t : Task) (task_id : Nat) : Task :=
  { t with upstream_tasks := pysetAdd t.upstream_tasks task_id }

/-- Embeds `Task.add_downstream_task`. -/
def Task.add_downstream_task (t : Task) (task_id : Nat) : Task :=
  { t with downstream_tasks := pysetAdd t.downstream_tasks task_id }

/-- Embeds `Task.is_ready`:
`return not self._upstream_tasks and self.status == TaskStatus.PENDING`. -/
def Task.is_ready (t : Task) : Bool :=
  t.upstream_tasks.isEmpty && decide (t.status = TaskStatus.pending)

/-- Embeds `Task.update_status` (sets the status and refreshes
`updated_at` from the clock). -/
def Task.update_status (t : Task) (new_status : TaskStatus) (now : Nat) : Task :=
  { t with status := new_status, updated_at := now }

/-- Embeds the `DAG` class of `models.py`; `tasks` is the Python dict
mapping task id to `Task`. -/
structure DAG where
  id : Nat
  name : String := ""
  description : String := ""
  created_at : Nat := 0
  updated_at : Nat := 0
  version : Nat := 1
  tasks : List (Nat × Task) := []
deriving DecidableEq, Repr

/-- Embeds `DAG.add_task`: `self.tasks[task.id] = task` plus the
`updated_at` refresh. -/
def DAG.add_task (d : DAG) (task : Task) (now : Nat) : DAG :=
  { d with tasks := dictInsert task.id task d.tasks, updated_at := now }

/-- Embeds `DAG.add_dependency`: raises `ValueError` unless both ids are in
the DAG, then mutates `tasks[upstream]._downstream_tasks` and
`tasks[downstream]._upstream_tasks` in that order. -/
def DAG.add_dependency (d : DAG) (upstream_task_id downstream_task_id : Nat)
    (now : Nat) : Except String DAG :=
  if (dictLookup upstream_task_id d.tasks).isSome
      ∧ (dictLookup downstream_task_id d.tasks).isSome then
    let tasks1 := dictModify upstream_task_id
      (fun t => t.add_downstream_task downstream_task_id) d.tasks
    let tasks2 := dictModify downstream_task_id
      (fun t => t.add_upstream_task upstream_task_id) tasks1
    Except.ok { d with tasks := tasks2, updated_at := now }
  else
    Except.error "ValueError"

/-- Embeds `DAG.get_ready_tasks`:
`[task for task in self.tasks.values() if task.is_ready()]`. -/
def DAG.get_ready_tasks (d : DAG) : List Task :=
  (dictValues d.tasks).filter Task.is_ready

/-- The loop body of `DAG.update_task_status` for a completed task: for each
`downstream_id` in the completed task's `_downstream_tasks`, when the id is
in the DAG, `downstream_task._upstream_tasks.remove(task_id)` (which raises
`KeyError` when `task_id` is not in that set). -/
def removeUpstreamRefs (task_id : Nat) :
    List Nat → List (Nat × Task) → Except String (List (Nat × Task))
  | [], tasks => Except.ok tasks
  | downstream_id :: rest, tasks =>
      match dictLookup downstream_id tasks with
      | none => removeUpstreamRefs task_id rest tasks
      | some dt =>
          match pysetRemove dt.upstream_tasks task_id with
          | Except.error e => Except.error e
          | Except.ok ups =>
              removeUpstreamRefs task_id rest
                (dictModify downstream_id
                  (fun t => { t with upstream_tasks := ups }) tasks)

/-- Embeds `DAG.update_task_status`: raises `ValueError` when the task is
absent; otherwise updates the task's status, and when the new status is
`COMPLETED` removes the task from each present downstream task's
`_upstream_tasks` set (a second removal raises `KeyError`). -/
def DAG.update_task_status (d : DAG) (task_id : Nat) (status : TaskStatus)
    (now : Nat) : Except String DAG :=
  match dictLookup task_id d.tasks with
  | none => Except.error "ValueError"
  | some task =>
      let tasks1 := dictModify task_id
        (fun t => t.update_status status now) d.tasks
      if status = TaskStatus.completed then
        match removeUpstreamRefs task_id task.downstream_tasks tasks1 with
        | Except.error e => Except.error e
        | Except.ok tasks2 => Except.ok { d with tasks := tasks2 }
      else
        Except.ok { d with tasks := tasks1 }

/-- The downstream ids recorded for `n` in the DAG's task dict (empty when
`n` is absent); `DAG.validate` follows exactly these ids. -/
def DAG.succs (d : DAG) (n : Nat) : List Nat :=
  match dictLookup n d.tasks with
  | some t => t.downstream_tasks
  | none => []

/-- The loop `for downstream_id in task._downstream_tasks: if
downstream_id in self.tasks and has_cycle(downstream_id): return True`
inside `has_cycle`, parameterized by the recursive call `step` (the
embedding splits the mutual recursion of `has_cycle` and its loop this
way so that both functions are structurally recursive and compute). -/
def hasCycleListF (d : DAG)
    (step : Nat → List Nat → List Nat → Option (Bool × List Nat)) :
    List Nat → List Nat → List Nat → Option (Bool × List Nat)
  | [], visited, _ => some (false, visited)
  | downstream_id :: rest, visited, temp =>
      if (dictLookup downstream_id d.tasks).isSome then
        match step downstream_id visited temp with
        | none => none
        | some (true, vis) => some (true, vis)
        | some (false, vis) => hasCycleListF d step rest vis temp
      else
        hasCycleListF d step rest visited temp

/-- Embeds the recursive helper `has_cycle(node_id)` of `DAG.validate`.
Returns `some (cycleFound, visited)` where `visited` is the updated
`visited` set; the `temp_visited` set is `temp` here, and on a `False`
return the source removes `node` from `temp_visited` again, which the
purely functional embedding reflects by the caller simply keeping its own
`temp`.  The `fuel` argument is an artifact of the embedding (Python
recursion has no fuel); the `auxStep` lemma below shows the fuel used by
`DAG.validate` is never exhausted. -/
def hasCycleAux (d : DAG) : Nat → Nat → List Nat → List Nat →
    Option (Bool × List Nat)
  | 0, _, _, _ => none
  | Nat.succ fuel, node, visited, temp =>
      if node ∈ temp then some (true, visited)
      else if node ∈ visited then some (false, visited)
      else
        match hasCycleListF d (hasCycleAux d fuel) (d.succs node) visited
            (node :: temp) with
        | none => none
        | some (true, vis) => some (true, vis)
        | some (false, vis) => some (false, node :: vis)

/-- The downstream loop of `has_cycle` at a given fuel. -/
def hasCycleList (d : DAG) (fuel : Nat) :
    List Nat → List Nat → List Nat → Option (Bool × List Nat) :=
  hasCycleListF d (hasCycleAux d fuel)

/-- Embeds the outer loop of `DAG.validate`: `for task_id in self.tasks: if
task_id not in visited and has_cycle(task_id): return False`, then
`return True`. -/
def validateAux (d : DAG) : List Nat → List Nat → Bool
  | [], _ => true
  | task_id :: rest, visited =>
      if task_id ∈ visited then validateAux d rest visited
      else
        match hasCycleAux d (d.tasks.length + 1) task_id visited [] with
        | some (true, _) => false
        | some (false, vis) => validateAux d rest vis
        | none => false

/-- Embeds `DAG.validate` (depth-first cycle detection over the downstream
relation). -/
def DAG.validate (d : DAG) : Bool :=
  validateAux d (dictKeys d.tasks) []

/-!
## Storage layer

Embeds `postgres_dag_storage.py`.  The relational layout is a DAG table, a
Task table (each row carrying its `dag_id`) and a dependency table of
`(upstream_task_id, downstream_task_id)` pairs.  A task-table row is
represented by a `Task` value whose edge-list fields are unused (they stay
`[]`); a DAG-table row by a `DAG` value whose `tasks` field is unused.
-/

/-- The relational store of `PostgresDAGStorage`. -/
structure Storage where
  dag_rows : List DAG := []
  task_rows : List (Nat × Task) := []
  deps : List (Nat × Nat) := []
deriving DecidableEq, Repr

/-- Embeds the per-row domain-object reconstruction used by
`get_ready_tasks` / `get_tasks_by_status` / `get_dag`: the `Task`
constructor is called with the row's columns only, so the reconstructed
object has empty `_upstream_tasks` / `_downstream_tasks`. -/
def rowToTask (t : Task) : Task :=
  { t with upstream_tasks := [], downstream_tasks := [] }

/-- Embeds `PostgresDAGStorage.get_ready_tasks`: all task rows whose stored
status is `READY`, reconstructed as domain objects. -/
def Storage.get_ready_tasks (s : Storage) : List Task :=
  ((s.task_rows.filter fun r => r.2.status = TaskStatus.ready).map
    fun r => rowToTask r.2)

/-- Embeds `PostgresDAGStorage.get_tasks_by_status`. -/
def Storage.get_tasks_by_status (s : Storage) (status : TaskStatus) : List Task :=
  ((s.task_rows.filter fun r => r.2.status = status).map
    fun r => rowToTask r.2)

/-- Embeds `PostgresDAGStorage.get_dag`: reconstructs the DAG domain object
from its row, its task rows, and the dependency rows between them. -/
def Storage.get_dag (s : Storage) (dag_id : Nat) (now : Nat) : Option DAG :=
  match s.dag_rows.find? fun dm => dm.id = dag_id with
  | none => none
  | some dag_model =>
      let dag : DAG :=
        { id := dag_model.id, name := dag_model.name,
          description := dag_model.description,
          created_at := dag_model.created_at,
          updated_at := dag_model.updated_at, version := dag_model.version }
      let task_models := s.task_rows.filter fun r => r.1 = dag_id
      let dag := task_models.foldl
        (fun d r => d.add_task (rowToTask r.2) now) dag
      let task_ids := task_models.map fun r => r.2.id
      let dependencies := s.deps.filter fun dep => dep.1 ∈ task_ids
      let dag := dependencies.foldl
        (fun d dep =>
          if (dictLookup dep.1 d.tasks).isSome
              ∧ (dictLookup dep.2 d.tasks).isSome then
            -- the guard makes `add_dependency` succeed, so the error
            -- branch of the `Except` is unreachable here
            match d.add_dependency dep.1 dep.2 now with
            | Except.ok d2 => d2
            | Except.error _ => d
          else d)
        dag
      some dag

/-- Sets the status column of the first task row matching the given task id
and DAG id (the `.first()` row of the SQLAlchemy query); returns `none`
when no row matches. -/
def setRowStatus (task_id dag_id : Nat) (status : TaskStatus) :
    List (Nat × Task) → Option (List (Nat × Task))
  | [] => none
  | r :: rest =>
      if r.2.id = task_id ∧ r.1 = dag_id then
        some ((r.1, { r.2 with status := status }) :: rest)
      else
        (setRowStatus task_id dag_id status rest).map (fun l => r :: l)

/-- Sets the status column of the first task row with the given id
(ignoring `dag_id`), as the queries inside `_update_downstream_tasks` do. -/
def setRowStatusById (task_id : Nat) (status : TaskStatus) :
    List (Nat × Task) → List (Nat × Task)
  | [] => []
  | r :: rest =>
      if r.2.id = task_id then (r.1, { r.2 with status := status }) :: rest
      else r :: setRowStatusById task_id status rest

/-- The first task row with the given id (ignoring `dag_id`). -/
def findRowById (rows : List (Nat × Task)) (task_id : Nat) : Option Task :=
  (rows.find? fun r => r.2.id = task_id).map fun r => r.2

/-- Embeds `PostgresDAGStorage._update_downstream_tasks`: for every
dependency row whose upstream is the completed task, when the downstream
task row exists and is `PENDING` and all of its upstream tasks are
`COMPLETED`, set the downstream row's status to `READY`. -/
def updateDownstreamRows (deps : List (Nat × Nat)) (completed_task_id : Nat)
    (rows : List (Nat × Task)) : List (Nat × Task) :=
  (deps.filter fun dep => dep.1 = completed_task_id).foldl
    (fun rows dep =>
      match findRowById rows dep.2 with
      | none => rows
      | some downstream_task =>
          if downstream_task.status ≠ TaskStatus.pending then rows
          else
            let upstream_dependencies := deps.filter fun ud => ud.2 = dep.2
            let all_completed := upstream_dependencies.all fun ud =>
              match findRowById rows ud.1 with
              | some upstream_task =>
                  decide (upstream_task.status = TaskStatus.completed)
              | none => false
            if all_completed then setRowStatusById dep.2 TaskStatus.ready rows
            else rows)
    rows

/-- Embeds `PostgresDAGStorage.update_task_status`: returns `False` when no
row matches `(task_id, dag_id)`; otherwise sets the row's status, and on
`COMPLETED` additionally runs `_update_downstream_tasks` in the same
transaction. -/
def Storage.update_task_status (s : Storage) (dag_id task_id : Nat)
    (status : TaskStatus) : Bool × Storage :=
  match setRowStatus task_id dag_id status s.task_rows with
  | none => (false, s)
  | some rows1 =>
      if status = TaskStatus.completed then
        (true, { s with task_rows := updateDownstreamRows s.deps task_id rows1 })
      else
        (true, { s with task_rows := rows1 })

/-!
## Task dispatcher

Embeds `task_dispatcher.py`.  The RabbitMQ client is modelled by a log of
`publish_tasks` calls; `datetime.now()` is the explicit `now` argument.
-/

/-- The state of a `TaskDispatcher` (its storage handle, its in-memory
`assigned_tasks` dict of assignment times, and the broker publish log). -/
structure TaskDispatcher where
  dag_storage : Storage
  assigned_tasks : List (Nat × Nat) := []
  published : List (List Task) := []
deriving DecidableEq, Repr

/-- Embeds `TaskDispatcher._find_dag_ids_for_task`.  The source initialises
`dag_ids = set()`, loops over the tasks returned by `get_tasks_by_status`
for the `READY`, `ASSIGNED` and `IN_PROGRESS` statuses, but the loop body
for a matching task is `pass` (an acknowledged placeholder), so nothing is
ever added and the function returns the empty set. -/
def TaskDispatcher.find_dag_ids_for_task (disp : TaskDispatcher)
    (task_id : Nat) : List Nat :=
  let dag_ids : List Nat := []
  let statuses_to_check :=
    [TaskStatus.ready, TaskStatus.assigned, TaskStatus.in_progress]
  let _ := statuses_to_check.map fun status =>
    (disp.dag_storage.get_tasks_by_status status).filter
      fun task => task.id = task_id
  dag_ids

/-- Embeds the loop `for dag_id in self._find_dag_ids_for_task(task_id):
if self.dag_storage.update_task_status(dag_id, task_id, status): return
True` of `assign_task`, returning `False` when the loop exhausts. -/
def updateInDags (s : Storage) (task_id : Nat) (status : TaskStatus) :
    List Nat → Bool × Storage
  | [] => (false, s)
  | dag_id :: rest =>
      let r := s.update_task_status dag_id task_id status
      if r.1 then (true, r.2) else updateInDags r.2 task_id status rest

/-- Embeds `TaskDispatcher.assign_task`: fetches the ready tasks, looks the
task up among them (returning `False` when absent), mutates the fetched
copy, records the assignment time in `self.assigned_tasks`, and then tries
to persist `ASSIGNED` for each DAG id returned by
`_find_dag_ids_for_task`, returning `False` when none succeeded. -/
def TaskDispatcher.assign_task (disp : TaskDispatcher) (task_id : Nat)
    (executor_id : String) (now : Nat) : Bool × TaskDispatcher :=
  let ready_tasks := disp.dag_storage.get_ready_tasks
  match ready_tasks.find? fun t => t.id = task_id with
  | none => (false, disp)
  | some task =>
      -- the source mutates the fetched copy, not the stored row:
      let _task1 :=
        ({ task with assigned_to := some executor_id }).update_status
          TaskStatus.assigned now
      let disp1 :=
        { disp with assigned_tasks := dictInsert task_id now disp.assigned_tasks }
      let dag_ids := disp1.find_dag_ids_for_task task_id
      let r := updateInDags disp1.dag_storage task_id TaskStatus.assigned dag_ids
      (r.1, { disp1 with dag_storage := r.2 })

/-- Embeds the inner loop of `check_task_timeouts` for one timed-out task
id: for each DAG id from `_find_dag_ids_for_task`, persist `FAILED` and on
success collect the task object out of `get_dag`. -/
def timeoutMarkLoop (task_id now : Nat) :
    List Nat → Storage → List Task → List Task × Storage
  | [], s, acc => (acc, s)
  | dag_id :: rest, s, acc =>
      let r := s.update_task_status dag_id task_id TaskStatus.failed
      if r.1 then
        match r.2.get_dag dag_id now with
        | some dag =>
            match dictLookup task_id dag.tasks with
            | some t => timeoutMarkLoop task_id now rest r.2 (acc ++ [t])
            | none => timeoutMarkLoop task_id now rest r.2 acc
        | none => timeoutMarkLoop task_id now rest r.2 acc
      else
        timeoutMarkLoop task_id now rest r.2 acc

/-- Embeds the outer loop of `check_task_timeouts` over the timed-out task
ids: the current dispatcher (with `assigned_tasks` already pruned and the
evolving storage) computes `_find_dag_ids_for_task` and runs the marking
loop for each id. -/
def timeoutScanLoop (disp1 : TaskDispatcher) (now : Nat) :
    List Nat → Storage → List Task → List Task × Storage
  | [], s, acc => (acc, s)
  | task_id :: rest, s, acc =>
      let dag_ids :=
        ({ disp1 with dag_storage := s } :
          TaskDispatcher).find_dag_ids_for_task task_id
      let r := timeoutMarkLoop task_id now dag_ids s acc
      timeoutScanLoop disp1 now rest r.2 r.1

/-- Embeds `TaskDispatcher.check_task_timeouts`: removes from
`self.assigned_tasks` every entry whose time since assignment exceeds the
`timeout_seconds` argument (default 3600), then for each such task id tries
to persist `FAILED` in every DAG returned by `_find_dag_ids_for_task`,
collecting the marked tasks. -/
def TaskDispatcher.check_task_timeouts (disp : TaskDispatcher)
    (timeout_seconds : Nat) (now : Nat) : List Task × TaskDispatcher :=
  let timed_out_task_ids :=
    (disp.assigned_tasks.filter fun p => now - p.2 > timeout_seconds).map
      fun p => p.1
  let remaining :=
    disp.assigned_tasks.filter fun p => ¬ now - p.2 > timeout_seconds
  let disp1 := { disp with assigned_tasks := remaining }
  let r := timeoutScanLoop disp1 now timed_out_task_ids disp1.dag_storage []
  (r.1, { disp1 with dag_storage := r.2 })

/-- Embeds the per-task body of `reassign_failed_tasks`: mutate the fetched
copy to `READY` with no assignee, then try to persist `READY` for each DAG
id from `_find_dag_ids_for_task` (ignoring the results). -/
def reassignOne (disp : TaskDispatcher) (task : Task) (now : Nat) :
    Task × Storage :=
  let task1 := ({ task with assigned_to := none }).update_status
    TaskStatus.ready now
  let dag_ids := disp.find_dag_ids_for_task task.id
  let s1 := dag_ids.foldl
    (fun s dag_id => (Storage.update_task_status s dag_id task.id
      TaskStatus.ready).2)
    disp.dag_storage
  (task1, s1)

/-- Embeds `TaskDispatcher.reassign_failed_tasks`: fetches the `FAILED`
tasks, resets each fetched copy to `READY` / unassigned, tries to persist
(per `_find_dag_ids_for_task`), publishes the (mutated) list to the broker
when non-empty, and returns it. -/
def TaskDispatcher.reassign_failed_tasks (disp : TaskDispatcher) (now : Nat) :
    List Task × TaskDispatcher :=
  let failed_tasks := disp.dag_storage.get_tasks_by_status TaskStatus.failed
  let r := failed_tasks.foldl
    (fun (acc : List Task × TaskDispatcher) task =>
      let one := reassignOne acc.2 task now
      (acc.1 ++ [one.1], { acc.2 with dag_storage := one.2 }))
    ([], disp)
  let reassigned := r.1
  let disp1 := r.2
  let disp2 :=
    if reassigned.isEmpty then disp1
    else { disp1 with published := disp1.published ++ [reassigned] }
  (reassigned, disp2)

/-!
## Executor agent: handler registry and handler selection

Embeds the relevant parts of `executor_agent.py`.  A handler is a record of
its `supported_task_types`, `capabilities` and `can_handle_task` method;
the `hid` field is an identity tag the embedding adds so that distinct
handler instances can be told apart in statements (Python object identity).
-/

/-- A task handler as seen by the executor registry. -/
structure TaskHandler where
  hid : Nat
  supported_task_types : List String := []
  capabilities : List String := []
  can_handle_task : String → List (String × String) → Bool

/-- The registry-relevant state of an `ExecutorAgent`:
`registered_handlers` is the Python dict mapping task type to handler,
`supported_task_types` and `capabilities` the accumulated sets. -/
structure ExecutorAgent where
  registered_handlers : List (String × TaskHandler) := []
  supported_task_types : List String := []
  capabilities : List String := []

/-- Embeds `ExecutorAgent.register_handler`: for each supported task type,
add it to `supported_task_types` and map it to this handler (a later
registration of the same type overwrites the value but keeps the key's
position, per Python dict semantics); then accumulate the handler's
capabilities. -/
def ExecutorAgent.register_handler (ex : ExecutorAgent)
    (handler : TaskHandler) : ExecutorAgent :=
  let ex1 := handler.supported_task_types.foldl
    (fun (e : ExecutorAgent) task_type =>
      { e with
        supported_task_types := pysetAdd e.supported_task_types task_type,
        registered_handlers := dictInsert task_type handler e.registered_handlers })
    ex
  { ex1 with
    capabilities := handler.capabilities.foldl
      (fun caps c => pysetAdd caps c) ex1.capabilities }

/-- Embeds `ExecutorAgent._get_handler_for_task`: strategy 1 is the exact
`task_type` key whose handler's `can_handle_task` returns true; strategy 2
scans `registered_handlers.items()` in dict order for the first handler
whose `can_handle_task` returns true; otherwise no handler. -/
def ExecutorAgent.get_handler_for_task (ex : ExecutorAgent)
    (task_type : String) (parameters : List (String × String)) :
    Option TaskHandler :=
  let strategy2 :=
    (ex.registered_handlers.find? fun p =>
      p.2.can_handle_task task_type parameters).map fun p => p.2
  match dictLookup task_type ex.registered_handlers with
  | some handler =>
      if handler.can_handle_task task_type parameters then some handler
      else strategy2
  | none => strategy2

/-- The fate of a claimed task in `_execution_cycle`: either a handler is
selected and executed, or the task is reported `failed` with an error
string (never silently dropped). -/
inductive ExecOutcome where
  | executed (handler : TaskHandler)
  | reportedFailed (error : String)

/-- Embeds the handler-selection part of `ExecutorAgent._execution_cycle`
for a claimed task: when `_get_handler_for_task` returns no handler, the
cycle raises `ValueError(f"No handler available for task type: {task_type}")`,
which the surrounding `except` reports as a `failed` status update with
`error=f"Error during execution: {str(e)}"`. -/
def ExecutorAgent.dispatch_claimed_task (ex : ExecutorAgent)
    (task_type : String) (parameters : List (String × String)) : ExecOutcome :=
  match ex.get_handler_for_task task_type parameters with
  | some handler => ExecOutcome.executed handler
  | none =>
      ExecOutcome.reportedFailed
        ("Error during execution: No handler available for task type: "
          ++ task_type)

/-!
## Generic task handler: the `filter` and `map` transforms

Embeds the `filter` and `map` branches of
`GenericTaskHandler._execute_transform_data_task`.  Both branches run
`eval(expr, {"__builtins__": {}}, {"item": item})` on the caller-supplied
expression string; the embedding represents the caller's expression by an
abstract syntax tree `PyExpr` covering the integer/boolean expression
fragment of Python, with `pyEval` as the evaluator (`none` = the evaluation
raised, which the source's `except` branch turns into returning the input
unchanged with transformation type `"error"`).  Items are modelled as
integers.
-/

/-- A Python value produced by evaluating a transform expression. -/
inductive PyVal where
  | int (n : Int)
  | bool (b : Bool)
deriving DecidableEq, Repr

/-- A caller-supplied Python expression over the variable `item` (the
integer/boolean fragment).  This is the payload of the `filter_expr` /
`map_expr` parameter that the source passes to `eval`. -/
inductive PyExpr where
  | item
  | lit (n : Int)
  | add (a b : PyExpr)
  | mul (a b : PyExpr)
  | mod (a b : PyExpr)
  | eqTest (a b : PyExpr)
  | ltTest (a b : PyExpr)
  | gtTest (a b : PyExpr)
deriving DecidableEq, Repr

/-- Evaluation of a caller-supplied expression with `item` bound, as
`eval(expr, {"__builtins__": {}}, {"item": item})` does (Python `%` on a
positive divisor agrees with `Int.emod`); `none` models a raised
exception. -/
def pyEval : PyExpr → Int → Option PyVal
  | PyExpr.item, item => some (PyVal.int item)
  | PyExpr.lit n, _ => some (PyVal.int n)
  | PyExpr.add a b, item =>
      match pyEval a item, pyEval b item with
      | some (PyVal.int x), some (PyVal.int y) => some (PyVal.int (x + y))
      | _, _ => none
  | PyExpr.mul a b, item =>
      match pyEval a item, pyEval b item with
      | some (PyVal.int x), some (PyVal.int y) => some (PyVal.int (x * y))
      | _, _ => none
  | PyExpr.mod a b, item =>
      match pyEval a item, pyEval b item with
      | some (PyVal.int x), some (PyVal.int y) =>
          if y = 0 then none else some (PyVal.int (Int.emod x y))
      | _, _ => none
  | PyExpr.eqTest a b, item =>
      match pyEval a item, pyEval b item with
      | some (PyVal.int x), some (PyVal.int y) => some (PyVal.bool (x = y))
      | _, _ => none
  | PyExpr.ltTest a b, item =>
      match pyEval a item, pyEval b item with
      | some (PyVal.int x), some (PyVal.int y) => some (PyVal.bool (x < y))
      | _, _ => none
  | PyExpr.gtTest a b, item =>
      match pyEval a item, pyEval b item with
      | some (PyVal.int x), some (PyVal.int y) => some (PyVal.bool (x > y))
      | _, _ => none

/-- Python truthiness of an evaluated expression value. -/
def pyTruthy : PyVal → Bool
  | PyVal.int n => decide (n ≠ 0)
  | PyVal.bool b => b

/-- Embeds the `filter` branch of `_execute_transform_data_task`:
`[item for item in input_data if eval(filter_expr, {"__builtins__": {}},
{"item": item})]`, with the `except` branch returning the input unchanged
and transformation type `"error"`.  Returns the result data paired with the
reported transformation type. -/
def transformFilter (input_data : List Int) (filter_expr : PyExpr) :
    List Int × String :=
  if input_data.all fun item => (pyEval filter_expr item).isSome then
    (input_data.filter fun item =>
        match pyEval filter_expr item with
        | some v => pyTruthy v
        | none => false,
      "filter")
  else
    (input_data, "error")

/-- Embeds the `map` branch of `_execute_transform_data_task`:
`[eval(map_expr, {"__builtins__": {}}, {"item": item}) for item in
input_data]`, with the `except` branch returning the input unchanged and
transformation type `"error"`. -/
def transformMap (input_data : List Int) (map_expr : PyExpr) :
    List PyVal × String :=
  if input_data.all fun item => (pyEval map_expr item).isSome then
    (input_data.filterMap fun item => pyEval map_expr item, "map")
  else
    (input_data.map PyVal.int, "error")

/-!
## Claim C3: readiness computation

The claim says a task is reported ready precisely when its status is
PENDING or READY and every upstream task is COMPLETED.  `Task.is_ready`
actually tests `status == PENDING` (READY is not accepted) and emptiness of
the task's recorded `_upstream_tasks` set (the edge-removal view:
`DAG.update_task_status` deletes an upstream edge when the upstream task
completes), not the statuses of the upstream tasks.
-/

/-- The readiness condition exactly as the claim states it (spec words, for
comparison with the code's `Task.is_ready`): status is PENDING or READY and
every upstream task is present and COMPLETED. -/
def specReady (d : DAG) (t : Task) : Prop :=
  (t.status = TaskStatus.pending ∨ t.status = TaskStatus.ready) ∧
  ∀ u ∈ t.upstream_tasks, ∃ ut, dictLookup u d.tasks = some ut ∧
    ut.status = TaskStatus.completed

instance (d : DAG) (t : Task) : Decidable (specReady d t) := by
  unfold specReady
  infer_instance

/-- A task in status READY with no upstream dependencies. -/
def c3Task : Task := { id := 1, status := TaskStatus.ready }

/-- A one-task DAG whose sole task is READY. -/
def c3Dag : DAG := DAG.add_task { id := 10 } c3Task 0

/-- Claim C3 is false: the READY task of `c3Dag` satisfies the claim's
readiness condition (status PENDING/READY, all upstream tasks — vacuously —
COMPLETED), yet `DAG.get_ready_tasks` does not report it: `Task.is_ready`
accepts only status PENDING. -/
theorem C3_counterexample :
    dictLookup 1 c3Dag.tasks = some c3Task ∧ specReady c3Dag c3Task ∧
      c3Dag.get_ready_tasks = [] := by
  refine ⟨by decide, by decide, by decide⟩

/-- Claim C3 as amended: `DAG.get_ready_tasks` reports exactly the tasks of
the DAG whose status is PENDING and whose recorded `_upstream_tasks` set is
empty (upstream edges having been removed as upstream tasks completed); in
particular a task is never reported ready while its upstream set is
non-empty, and a task in status READY is never reported. -/
theorem C3_ready_characterization (d : DAG) (t : Task) :
    t ∈ d.get_ready_tasks ↔
      t ∈ dictValues d.tasks ∧ t.status = TaskStatus.pending ∧
        t.upstream_tasks = [] := by
  simp only [DAG.get_ready_tasks, List.mem_filter, Task.is_ready,
    Bool.and_eq_true, decide_eq_true_eq, List.isEmpty_iff, and_assoc]
  tauto

/-!
## Claims C1, C2, C5, C6: the dispatcher never reaches storage

`TaskDispatcher._find_dag_ids_for_task` always returns the empty set, so
every storage write the dispatcher attempts is guarded by a loop over no
DAG ids: `assign_task` always returns `False` without recording anything,
`check_task_timeouts` never marks a task `FAILED` and returns `[]`, and
`reassign_failed_tasks` never resets a stored status.
-/

/-- `_find_dag_ids_for_task` returns the empty set on every input. -/
lemma find_dag_ids_for_task_eq_nil (disp : TaskDispatcher) (task_id : Nat) :
    disp.find_dag_ids_for_task task_id = [] := rfl

/-- `assign_task` always returns `False` and leaves both the storage and
the broker log untouched (only the in-memory `assigned_tasks` timestamp
dict can change). -/
lemma assign_task_spec (disp : TaskDispatcher) (task_id : Nat)
    (executor_id : String) (now : Nat) :
    (disp.assign_task task_id executor_id now).1 = false ∧
      (disp.assign_task task_id executor_id now).2.dag_storage
        = disp.dag_storage ∧
      (disp.assign_task task_id executor_id now).2.published
        = disp.published := by
  dsimp only [TaskDispatcher.assign_task]
  split <;> exact ⟨rfl, rfl, rfl⟩

/-- Claim C1 is refuted by the code: `assign_task(task_id, executor_id)`
returns `False` for every dispatcher state, every task id (ready or not)
and every executor, and records nothing in storage — the DAG-id lookup it
persists through is the placeholder `_find_dag_ids_for_task`, which always
yields the empty set, so the conditional update loop never runs. -/
theorem C1_assign_task_always_fails (disp : TaskDispatcher) (task_id : Nat)
    (executor_id : String) (now : Nat) :
    (disp.assign_task task_id executor_id now).1 = false ∧
      (disp.assign_task task_id executor_id now).2.dag_storage
        = disp.dag_storage :=
  ⟨(assign_task_spec disp task_id executor_id now).1,
    (assign_task_spec disp task_id executor_id now).2.1⟩

/-- A serialized run of claim attempts `(task_id, executor_id, time)`,
each executed with `assign_task`, collecting the returned booleans. -/
def runClaims (disp : TaskDispatcher) :
    List (Nat × String × Nat) → List Bool × TaskDispatcher
  | [] => ([], disp)
  | c :: rest =>
      let r := disp.assign_task c.1 c.2.1 c.2.2
      let rs := runClaims r.2 rest
      (r.1 :: rs.1, rs.2)

/-- Claim C2 is refuted by the code: any number of claim attempts on any
task (in particular N attempts on one READY task) yield zero successes,
not exactly one, because `assign_task` can never return `True`. -/
theorem C2_no_claim_ever_succeeds (disp : TaskDispatcher)
    (calls : List (Nat × String × Nat)) :
    (runClaims disp calls).1.count true = 0 := by
  induction calls generalizing disp with
  | nil => rfl
  | cons c rest ih =>
      simp [runClaims, (assign_task_spec disp c.1 c.2.1 c.2.2).1, ih]

/-- The per-task reassignment body never touches storage: the fetched copy
is mutated, but the persistence loop runs over the empty DAG-id set. -/
lemma reassignOne_spec (disp : TaskDispatcher) (task : Task) (now : Nat) :
    reassignOne disp task now =
      (({ task with assigned_to := none }).update_status TaskStatus.ready now,
        disp.dag_storage) := rfl

/-- The fold inside `reassign_failed_tasks` maps the fetched tasks to their
mutated copies and leaves the dispatcher (storage, broker log, timestamps)
unchanged. -/
lemma reassign_foldl (now : Nat) (tasks : List Task)
    (acc : List Task × TaskDispatcher) :
    tasks.foldl
        (fun (acc : List Task × TaskDispatcher) task =>
          let one := reassignOne acc.2 task now
          (acc.1 ++ [one.1], { acc.2 with dag_storage := one.2 }))
        acc
      = (acc.1 ++ tasks.map
          (fun task =>
            ({ task with assigned_to := none }).update_status
              TaskStatus.ready now),
          acc.2) := by
  induction tasks generalizing acc with
  | nil => simp
  | cons t rest ih =>
      rw [List.foldl_cons]
      refine (ih _).trans (Prod.ext ?_ ?_)
      · simp [reassignOne_spec]
      · rfl

/-- Claim C5 is partly refuted by the code: `reassign_failed_tasks` does
return (copies of) exactly the tasks that were stored as `FAILED`, with
status `READY` and `assigned_to` cleared on the returned copies, and it
publishes that list to the broker — but it never resets the stored status:
the storage is returned unchanged (the persistence loop runs over the
always-empty `_find_dag_ids_for_task` result). -/
theorem C5_reassign_leaves_storage_unchanged (disp : TaskDispatcher)
    (now : Nat) :
    (disp.reassign_failed_tasks now).1
        = (disp.dag_storage.get_tasks_by_status TaskStatus.failed).map
            (fun task =>
              ({ task with assigned_to := none }).update_status
                TaskStatus.ready now) ∧
      (disp.reassign_failed_tasks now).2.dag_storage = disp.dag_storage ∧
      (disp.reassign_failed_tasks now).2.published
        = (if (disp.reassign_failed_tasks now).1.isEmpty then disp.published
           else disp.published ++ [(disp.reassign_failed_tasks now).1]) := by
  unfold TaskDispatcher.reassign_failed_tasks
  simp only [reassign_foldl now _ ([], disp), List.nil_append]
  refine ⟨by trivial, ?_, ?_⟩
  · by_cases h :
      ((disp.dag_storage.get_tasks_by_status TaskStatus.failed).map
        (fun task =>
          ({ task with assigned_to := none }).update_status
            TaskStatus.ready now)).isEmpty
    · simp [h]
    · simp [h]
  · by_cases h :
      ((disp.dag_storage.get_tasks_by_status TaskStatus.failed).map
        (fun task =>
          ({ task with assigned_to := none }).update_status
            TaskStatus.ready now)).isEmpty
    · simp [h]
    · simp [h]

/-- The timeout scan loop over the (always empty) DAG-id sets is the
identity on its accumulator. -/
lemma timeoutScanLoop_id (disp1 : TaskDispatcher) (now : Nat)
    (ids : List Nat) (s : Storage) (acc : List Task) :
    timeoutScanLoop disp1 now ids s acc = (acc, s) := by
  induction ids generalizing s acc with
  | nil => rfl
  | cons i rest ih => exact ih s acc

/-- Claim C6 is refuted by the code: `check_task_timeouts` returns the
empty list and leaves storage untouched on every input — no task is ever
transitioned to `FAILED`, no timeout error message is ever recorded, and
the per-task `timeout_seconds` is never consulted (only entries of the
in-memory `assigned_tasks` dict are dropped). -/
theorem C6_timeout_check_marks_nothing (disp : TaskDispatcher)
    (timeout_seconds now : Nat) :
    (disp.check_task_timeouts timeout_seconds now).1 = [] ∧
      (disp.check_task_timeouts timeout_seconds now).2.dag_storage
        = disp.dag_storage ∧
      (disp.check_task_timeouts timeout_seconds now).2.published
        = disp.published := by
  unfold TaskDispatcher.check_task_timeouts
  simp only [timeoutScanLoop_id]
  exact ⟨trivial, trivial, trivial⟩

/-!
## Claim C8: filter/map execute caller-supplied expressions

The `filter` and `map` branches of `_execute_transform_data_task` pass the
caller-supplied `filter_expr` / `map_expr` string to `eval` for every item;
the result of the transform is whatever the caller's expression computes.
The claim that they are implemented via a restricted whitelisted operation
set (never executing caller-supplied expression code) is therefore false:
below, a composite arithmetic expression supplied by the caller —
`item * item % 7 == 2`, which is no fixed whitelisted operation — is
evaluated by the task-handling path and determines the output.
-/

/-- The caller-supplied filter expression `item * item % 7 == 2`. -/
def c8FilterExpr : PyExpr :=
  PyExpr.eqTest
    (PyExpr.mod (PyExpr.mul PyExpr.item PyExpr.item) (PyExpr.lit 7))
    (PyExpr.lit 2)

/-- Evaluating the transform at the failing input: the filter branch runs
the caller's arbitrary arithmetic expression on every item and keeps the
items it selects (`3 * 3 % 7 == 2` and `4 * 4 % 7 == 2`), and the map
branch computes the caller's expression `item * item` — the task-handling
path executes caller-supplied expression code rather than a whitelisted
operation set. -/
theorem C8_filter_map_run_caller_expression :
    transformFilter [1, 2, 3, 4] c8FilterExpr = ([3, 4], "filter") ∧
      transformMap [1, 2, 3] (PyExpr.mul PyExpr.item PyExpr.item)
        = ([PyVal.int 1, PyVal.int 4, PyVal.int 9], "map") := by
  exact ⟨by decide, by decide⟩

/-!
## Dict lemmas
-/

lemma dictLookup_dictModify_self (k : κ) (f : α → α) (l : List (κ × α)) :
    dictLookup k (dictModify k f l) = (dictLookup k l).map f := by
  induction l with
  | nil => rfl
  | cons p rest ih =>
      rcases p with ⟨k0, v0⟩
      by_cases h0 : k0 = k
      · subst h0
        simp [dictModify, dictLookup]
      · simp [dictModify, dictLookup, h0, ih]

lemma dictLookup_dictModify_ne {k k2 : κ} (f : α → α) (l : List (κ × α))
    (h : k2 ≠ k) :
    dictLookup k2 (dictModify k f l) = dictLookup k2 l := by
  induction l with
  | nil => rfl
  | cons p rest ih =>
      rcases p with ⟨k0, v0⟩
      by_cases h0 : k0 = k
      · subst h0
        have h2 : k0 ≠ k2 := fun he => h (he.symm)
        simp [dictModify, dictLookup, h2]
      · by_cases h2 : k0 = k2
        · subst h2
          simp [dictModify, dictLookup, h0]
        · simp [dictModify, dictLookup, h0, h2, ih]

lemma dictLookup_isSome_iff (k : κ) (l : List (κ × α)) :
    (dictLookup k l).isSome ↔ k ∈ dictKeys l := by
  induction l with
  | nil => simp [dictLookup, dictKeys]
  | cons p rest ih =>
      rcases p with ⟨k0, v0⟩
      by_cases h : k0 = k
      · subst h
        simp [dictLookup, dictKeys]
      · have h2 : k ≠ k0 := fun he => h he.symm
        simp [dictLookup, dictKeys, h, h2, ih]

lemma dictLookup_mem {k : κ} {v : α} {l : List (κ × α)}
    (h : dictLookup k l = some v) : (k, v) ∈ l := by
  induction l with
  | nil => cases h
  | cons p rest ih =>
      rcases p with ⟨k0, v0⟩
      have h2 : (if k0 = k then some v0 else dictLookup k rest) = some v := h
      by_cases h0 : k0 = k
      · rw [if_pos h0] at h2
        subst h0
        cases h2
        exact List.mem_cons_self _ _
      · rw [if_neg h0] at h2
        exact List.mem_cons_of_mem _ (ih h2)

/-!
## Claim C10: a duplicate COMPLETED update raises KeyError

`DAG.update_task_status(task_id, COMPLETED)` removes `task_id` from each
present downstream task's `_upstream_tasks` set with `set.remove`, which
raises `KeyError` on a second removal.  So a second COMPLETED update for a
task with at least one downstream task present in the DAG always raises.
-/

/-- Entry evolution under a successful completed-update edge-removal pass:
every surviving entry is the old entry with a (sub)list of its old upstream
set, and presence of keys is preserved in both directions. -/
lemma removeUpstreamRefs_lookup (tid : Nat) (l : List Nat)
    (tasks tasks2 : List (Nat × Task))
    (h : removeUpstreamRefs tid l tasks = Except.ok tasks2) (k : Nat) :
    (dictLookup k tasks2 = none ↔ dictLookup k tasks = none) ∧
      ∀ v2, dictLookup k tasks2 = some v2 → ∃ v,
        dictLookup k tasks = some v ∧
          v2 = { v with upstream_tasks := v2.upstream_tasks } ∧
          v2.upstream_tasks.Sublist v.upstream_tasks := by
  induction l generalizing tasks with
  | nil =>
      simp only [removeUpstreamRefs, Except.ok.injEq] at h
      subst h
      exact ⟨Iff.rfl, fun v2 h2 => ⟨v2, h2, rfl, List.Sublist.refl _⟩⟩
  | cons did rest ih =>
      simp only [removeUpstreamRefs] at h
      cases hd : dictLookup did tasks with
      | none =>
          simp only [hd] at h
          exact ih tasks h
      | some dt =>
          simp only [hd, pysetRemove] at h
          by_cases hmem : tid ∈ dt.upstream_tasks
          · simp only [if_pos hmem] at h
            have step := ih _ h
            rcases step with ⟨hnone, hsome⟩
            constructor
            · rw [hnone]
              by_cases hk : k = did
              · subst hk
                rw [dictLookup_dictModify_self, hd]
                simp
              · rw [dictLookup_dictModify_ne _ _ hk]
            · intro v2 h2
              rcases hsome v2 h2 with ⟨v1, hv1, hv1eq, hv1sub⟩
              by_cases hk : k = did
              · subst hk
                rw [dictLookup_dictModify_self, hd] at hv1
                simp only [Option.map_some'] at hv1
                have hv1' :
                    v1 = { dt with
                      upstream_tasks := dt.upstream_tasks.erase tid } :=
                  (Option.some.injEq _ _).mp hv1.symm
                refine ⟨dt, hd, ?_, ?_⟩
                · rw [hv1eq, hv1']
                · have : v1.upstream_tasks
                      = dt.upstream_tasks.erase tid := by rw [hv1']
                  exact (this ▸ hv1sub).trans
                    (List.erase_sublist tid dt.upstream_tasks)
              · rw [dictLookup_dictModify_ne _ _ hk] at hv1
                exact ⟨v1, hv1, hv1eq, hv1sub⟩
          · simp only [if_neg hmem] at h
            cases h

/-- After a successful edge-removal pass, every processed downstream id
that was present with a duplicate-free upstream set no longer lists the
completed task upstream. -/
lemma removeUpstreamRefs_processed (tid : Nat) (l : List Nat)
    (tasks tasks2 : List (Nat × Task))
    (h : removeUpstreamRefs tid l tasks = Except.ok tasks2) :
    ∀ did ∈ l, ∀ dt, dictLookup did tasks = some dt →
      dt.upstream_tasks.Nodup →
      ∃ dt2, dictLookup did tasks2 = some dt2 ∧
        tid ∉ dt2.upstream_tasks := by
  induction l generalizing tasks with
  | nil => intro did hmem; cases hmem
  | cons hd0 rest ih =>
      intro did hmem dt hdt hnd
      simp only [removeUpstreamRefs] at h
      by_cases heq : did = hd0
      · subst heq
        simp only [hdt, pysetRemove] at h
        by_cases hmem2 : tid ∈ dt.upstream_tasks
        · simp only [if_pos hmem2] at h
          have hnotmem : tid ∉ dt.upstream_tasks.erase tid := by
            intro hmem3
            exact absurd rfl ((List.Nodup.mem_erase_iff hnd).mp hmem3).1
          have hmod : dictLookup did
              (dictModify did
                (fun t => { t with
                  upstream_tasks := dt.upstream_tasks.erase tid }) tasks)
              = some { dt with
                  upstream_tasks := dt.upstream_tasks.erase tid } := by
            rw [dictLookup_dictModify_self, hdt]
            rfl
          rcases removeUpstreamRefs_lookup tid rest _ tasks2 h did with
            ⟨hnone, hsome⟩
          cases h2 : dictLookup did tasks2 with
          | none =>
              rw [hnone, hmod] at h2
              cases h2
          | some dt2 =>
              rcases hsome dt2 h2 with ⟨v1, hv1, _, hsub⟩
              rw [hmod] at hv1
              have hv1' : v1 = { dt with
                  upstream_tasks := dt.upstream_tasks.erase tid } :=
                (Option.some.injEq _ _).mp hv1.symm
              refine ⟨dt2, rfl, fun hm => hnotmem ?_⟩
              have := hsub.subset hm
              rw [hv1'] at this
              exact this
        · simp only [if_neg hmem2] at h
          cases h
      · cases hd : dictLookup hd0 tasks with
        | none =>
            simp only [hd] at h
            exact ih tasks h did
              ((List.mem_cons.mp hmem).resolve_left heq) dt hdt hnd
        | some dt0 =>
            simp only [hd, pysetRemove] at h
            by_cases hmem2 : tid ∈ dt0.upstream_tasks
            · simp only [if_pos hmem2] at h
              have hdt' : dictLookup did
                  (dictModify hd0
                    (fun t => { t with
                      upstream_tasks := dt0.upstream_tasks.erase tid }) tasks)
                  = some dt := by
                rw [dictLookup_dictModify_ne _ _ heq]
                exact hdt
              exact ih _ h did
                ((List.mem_cons.mp hmem).resolve_left heq) dt hdt' hnd
            · simp only [if_neg hmem2] at h
              cases h

/-- When some downstream id in the list is present but every present
downstream task no longer lists the completed task upstream, the removal
pass raises `KeyError`. -/
lemma removeUpstreamRefs_error (tid : Nat) (l : List Nat)
    (tasks : List (Nat × Task))
    (hex : ∃ did ∈ l, (dictLookup did tasks).isSome)
    (hall : ∀ did ∈ l, ∀ dt, dictLookup did tasks = some dt →
      tid ∉ dt.upstream_tasks) :
    removeUpstreamRefs tid l tasks = Except.error "KeyError" := by
  induction l with
  | nil => rcases hex with ⟨did, hmem, _⟩; cases hmem
  | cons hd0 rest ih =>
      simp only [removeUpstreamRefs]
      cases hd : dictLookup hd0 tasks with
      | none =>
          refine ih ?_ ?_
          · rcases hex with ⟨did, hmem, hs⟩
            rcases List.mem_cons.mp hmem with he | hm
            · subst he; rw [hd] at hs; cases hs
            · exact ⟨did, hm, hs⟩
          · exact fun did hm => hall did (List.mem_cons_of_mem _ hm)
      | some dt =>
          have hnm : tid ∉ dt.upstream_tasks :=
            hall hd0 (List.mem_cons_self _ _) dt hd
          simp only [pysetRemove, if_neg hnm]

/-- Claim C10: `DAG.update_task_status(task_id, COMPLETED)` is not
idempotent.  If the task is in the DAG, the recorded upstream sets are
duplicate-free (as Python sets are), at least one of the task's downstream
tasks is present in the DAG, and a first COMPLETED update succeeded, then a
second COMPLETED update raises an uncaught `KeyError` — the duplicate
completion notification crashes instead of being a no-op. -/
theorem C10_second_completion_raises_keyerror (d : DAG) (task_id : Nat)
    (t : Task) (now1 now2 : Nat) (d1 : DAG)
    (hl : dictLookup task_id d.tasks = some t)
    (hnd : ∀ kv ∈ d.tasks, (kv.2 : Task).upstream_tasks.Nodup)
    (hdown : ∃ did ∈ t.downstream_tasks, (dictLookup did d.tasks).isSome)
    (h1 : d.update_task_status task_id TaskStatus.completed now1
      = Except.ok d1) :
    d1.update_task_status task_id TaskStatus.completed now2
      = Except.error "KeyError" := by
  classical
  simp only [DAG.update_task_status, hl, if_true] at h1
  cases hrm : removeUpstreamRefs task_id t.downstream_tasks
      (dictModify task_id
        (fun tt => tt.update_status TaskStatus.completed now1) d.tasks) with
  | error e => rw [hrm] at h1; cases h1
  | ok tasks2 =>
      rw [hrm] at h1
      cases h1
      -- name the status-modified first dict
      have hlook1 : dictLookup task_id
          (dictModify task_id
            (fun tt => tt.update_status TaskStatus.completed now1) d.tasks)
          = some (t.update_status TaskStatus.completed now1) := by
        rw [dictLookup_dictModify_self, hl]
        rfl
      rcases removeUpstreamRefs_lookup task_id t.downstream_tasks _ tasks2
        hrm task_id with ⟨hnone, hsome⟩
      cases h2 : dictLookup task_id tasks2 with
      | none =>
          rw [hnone, hlook1] at h2
          cases h2
      | some t1 =>
          rcases hsome t1 h2 with ⟨v1, hv1, hv1eq, _⟩
          rw [hlook1] at hv1
          have hv1' : v1 = t.update_status TaskStatus.completed now1 :=
            (Option.some.injEq _ _).mp hv1.symm
          have ht1down : t1.downstream_tasks = t.downstream_tasks := by
            rw [hv1eq, hv1']
            rfl
          -- the second call
          show DAG.update_task_status _ _ _ _ = _
          simp only [DAG.update_task_status, h2, if_true]
          rw [ht1down]
          rw [removeUpstreamRefs_error task_id t.downstream_tasks _ ?_ ?_]
          · rcases hdown with ⟨did, hmem, hs⟩
            refine ⟨did, hmem, ?_⟩
            by_cases hk : did = task_id
            · subst hk
              rw [dictLookup_dictModify_self, h2]
              rfl
            · rw [dictLookup_dictModify_ne _ _ hk]
              cases h3 : dictLookup did tasks2 with
              | some _ => rfl
              | none =>
                  rcases removeUpstreamRefs_lookup task_id
                    t.downstream_tasks _ tasks2 hrm did with ⟨hnoneD, _⟩
                  rw [hnoneD] at h3
                  rw [dictLookup_dictModify_ne _ _ hk] at h3
                  rw [h3] at hs
                  cases hs
          · intro did hmem dt' hdt'
            by_cases hk : did = task_id
            · -- self-loop: the task itself already lost its own upstream edge
              rw [hk] at hdt' hmem
              rw [dictLookup_dictModify_self, h2] at hdt'
              simp only [Option.map_some'] at hdt'
              have hdt'' : dt'
                  = t1.update_status TaskStatus.completed now2 :=
                (Option.some.injEq _ _).mp hdt'.symm
              have hproc := removeUpstreamRefs_processed task_id
                t.downstream_tasks _ tasks2 hrm task_id hmem
                (t.update_status TaskStatus.completed now1) hlook1
                (by
                  have : t.upstream_tasks.Nodup :=
                    hnd (task_id, t) (dictLookup_mem hl)
                  exact this)
              rcases hproc with ⟨dt2, hdt2, hnm⟩
              rw [h2] at hdt2
              have ht12 : t1 = dt2 := (Option.some.injEq _ _).mp hdt2
              rw [hdt'']
              show task_id ∉ t1.upstream_tasks
              rw [ht12]
              exact hnm
            · rw [dictLookup_dictModify_ne _ _ hk] at hdt'
              cases h3 : dictLookup did
                  (dictModify task_id
                    (fun tt => tt.update_status TaskStatus.completed now1)
                    d.tasks) with
              | none =>
                  rcases removeUpstreamRefs_lookup task_id
                    t.downstream_tasks _ tasks2 hrm did with ⟨hnoneD, _⟩
                  rw [← hnoneD] at h3
                  rw [h3] at hdt'
                  cases hdt'
              | some dtold =>
                  have hndold : dtold.upstream_tasks.Nodup := by
                    rw [dictLookup_dictModify_ne _ _ hk] at h3
                    exact hnd (did, dtold) (dictLookup_mem h3)
                  rcases removeUpstreamRefs_processed task_id
                    t.downstream_tasks _ tasks2 hrm did hmem dtold h3
                    hndold with ⟨dt2, hdt2, hnm⟩
                  rw [hdt'] at hdt2
                  have : dt2 = dt' := (Option.some.injEq _ _).mp hdt2.symm
                  subst this
                  exact hnm

/-- The upstream task of the C10 witness DAG, as stored after the edge is
added: task 1 with task 2 downstream. -/
def c10TaskA1 : Task := { id := 1, downstream_tasks := [2] }

/-- A two-task DAG with the single dependency 1 → 2. -/
def c10Dag : DAG :=
  let d0 : DAG := { id := 100 }
  let d1 := (d0.add_task { id := 1 } 0).add_task { id := 2 } 0
  match d1.add_dependency 1 2 0 with
  | Except.ok d2 => d2
  | Except.error _ => d1

/-- The C10 witness DAG after task 1 completed once. -/
def c10Dag1 : DAG :=
  match c10Dag.update_task_status 1 TaskStatus.completed 1 with
  | Except.ok d2 => d2
  | Except.error _ => c10Dag

theorem C10_second_completion_witness :
    c10Dag1.update_task_status 1 TaskStatus.completed 2
      = Except.error "KeyError" :=
  C10_second_completion_raises_keyerror c10Dag 1 c10TaskA1 1 2 c10Dag1
    (by decide) (by decide) (by decide) rfl

/-!
## Claim C9: edge symmetry

The claim: in every DAG state reachable via `add_task`, `add_dependency`
and `update_task_status`, task A lists B downstream iff B lists A
upstream.  `update_task_status(·, COMPLETED)` breaks this: it removes the
upstream edge from each downstream task but leaves the completed task's
downstream edge in place.  Symmetry does hold for the states reachable
without COMPLETED updates (and without re-adding an existing task id,
which would drop a task's edges while other tasks still reference it).
-/

/-- The claim's invariant: task `a` lists `b` in its downstream set iff
task `b` lists `a` in its upstream set (over tasks present in the DAG). -/
def EdgeSymmetric (d : DAG) : Prop :=
  ∀ a b ta tb, dictLookup a d.tasks = some ta →
    dictLookup b d.tasks = some tb →
    (b ∈ ta.downstream_tasks ↔ a ∈ tb.upstream_tasks)

/-- Every dependency edge recorded on a task references a task present in
the DAG (auxiliary invariant). -/
def EdgesPresent (d : DAG) : Prop :=
  ∀ k tk, dictLookup k d.tasks = some tk →
    (∀ x ∈ tk.upstream_tasks, x ∈ dictKeys d.tasks) ∧
    (∀ x ∈ tk.downstream_tasks, x ∈ dictKeys d.tasks)

/-- DAG states reachable via the operations named by the claim:
`add_task` (of a freshly constructed task, whose edge sets the `Task`
constructor makes empty), `add_dependency`, and `update_task_status`. -/
inductive Reachable : DAG → Prop where
  | init (d : DAG) : d.tasks = [] → Reachable d
  | add_task (d : DAG) (t : Task) (now : Nat) : Reachable d →
      t.upstream_tasks = [] → t.downstream_tasks = [] →
      Reachable (d.add_task t now)
  | add_dependency (d d2 : DAG) (u v now : Nat) : Reachable d →
      d.add_dependency u v now = Except.ok d2 → Reachable d2
  | update_task_status (d d2 : DAG) (task_id : Nat) (st : TaskStatus)
      (now : Nat) : Reachable d →
      d.update_task_status task_id st now = Except.ok d2 → Reachable d2

/-- As `Reachable`, but without COMPLETED status updates and only adding
tasks whose id is not already in the DAG. -/
inductive ReachableNC : DAG → Prop where
  | init (d : DAG) : d.tasks = [] → ReachableNC d
  | add_task (d : DAG) (t : Task) (now : Nat) : ReachableNC d →
      t.upstream_tasks = [] → t.downstream_tasks = [] →
      dictLookup t.id d.tasks = none →
      ReachableNC (d.add_task t now)
  | add_dependency (d d2 : DAG) (u v now : Nat) : ReachableNC d →
      d.add_dependency u v now = Except.ok d2 → ReachableNC d2
  | update_task_status (d d2 : DAG) (task_id : Nat) (st : TaskStatus)
      (now : Nat) : ReachableNC d → st ≠ TaskStatus.completed →
      d.update_task_status task_id st now = Except.ok d2 → ReachableNC d2

/-- Membership in a Python set after `add`. -/
lemma mem_pysetAdd {x y : κ} {s : List κ} :
    x ∈ pysetAdd s y ↔ x ∈ s ∨ x = y := by
  unfold pysetAdd
  by_cases h : y ∈ s
  · rw [if_pos h]
    exact ⟨Or.inl, fun hx => hx.elim id (fun he => he ▸ h)⟩
  · rw [if_neg h]
    simp

/-- `dictModify` does not change the key list. -/
lemma dictKeys_dictModify (k : κ) (f : α → α) (l : List (κ × α)) :
    dictKeys (dictModify k f l) = dictKeys l := by
  induction l with
  | nil => rfl
  | cons p rest ih =>
      rcases p with ⟨k0, v0⟩
      by_cases h : k0 = k <;> simp [dictModify, dictKeys, h, ih] <;>
        simpa [dictKeys] using ih

/-- Lookup after inserting a fresh key. -/
lemma dictLookup_insert_fresh {k : κ} (v : α) {l : List (κ × α)}
    (h : dictLookup k l = none) (k2 : κ) :
    dictLookup k2 (dictInsert k v l)
      = if k2 = k then some v else dictLookup k2 l := by
  induction l with
  | nil =>
      by_cases h2 : k2 = k <;> simp [dictInsert, dictLookup, h2]
      exact fun he => absurd he.symm h2
  | cons p rest ih =>
      rcases p with ⟨k0, v0⟩
      have h0 : ¬ k0 = k := by
        intro he
        rw [dictLookup, if_pos he] at h
        cases h
      have hrest : dictLookup k rest = none := by
        rw [dictLookup, if_neg h0] at h
        exact h
      by_cases h2 : k0 = k2
      · subst h2
        rw [if_neg h0]
        simp [dictInsert, dictLookup, h0]
      · simp only [dictInsert, if_neg h0, dictLookup, if_neg h2]
        exact ih hrest

/-- Value characterization for `add_dependency`: every entry of the result
is the old entry with `u` possibly added upstream (when the key is `v`) and
`v` possibly added downstream (when the key is `u`). -/
lemma add_dependency_val {d d2 : DAG} {u v now : Nat}
    (h : d.add_dependency u v now = Except.ok d2) :
    (∀ k, dictLookup k d2.tasks = none ↔ dictLookup k d.tasks = none) ∧
      (∀ k tk', dictLookup k d2.tasks = some tk' → ∃ tk,
        dictLookup k d.tasks = some tk ∧
        tk'.upstream_tasks
          = (if k = v then pysetAdd tk.upstream_tasks u
             else tk.upstream_tasks) ∧
        tk'.downstream_tasks
          = (if k = u then pysetAdd tk.downstream_tasks v
             else tk.downstream_tasks)) ∧
      dictKeys d2.tasks = dictKeys d.tasks ∧
      u ∈ dictKeys d.tasks ∧ v ∈ dictKeys d.tasks := by
  unfold DAG.add_dependency at h
  by_cases hg : (dictLookup u d.tasks).isSome
      ∧ (dictLookup v d.tasks).isSome
  · rw [if_pos hg] at h
    cases h
    have hku : u ∈ dictKeys d.tasks := (dictLookup_isSome_iff u _).mp hg.1
    have hkv : v ∈ dictKeys d.tasks := (dictLookup_isSome_iff v _).mp hg.2
    refine ⟨?_, ?_, ?_, hku, hkv⟩
    · intro k
      show dictLookup k (dictModify v _ (dictModify u _ d.tasks)) = none ↔ _
      by_cases hkv2 : k = v
      · subst hkv2
        rw [dictLookup_dictModify_self]
        by_cases hku2 : k = u
        · subst hku2
          rw [dictLookup_dictModify_self]
          cases dictLookup k d.tasks <;> simp
        · rw [dictLookup_dictModify_ne _ _ hku2]
          cases dictLookup k d.tasks <;> simp
      · rw [dictLookup_dictModify_ne _ _ hkv2]
        by_cases hku2 : k = u
        · subst hku2
          rw [dictLookup_dictModify_self]
          cases dictLookup k d.tasks <;> simp
        · rw [dictLookup_dictModify_ne _ _ hku2]
    · intro k tk' hk'
      show ∃ tk, _
      replace hk' : dictLookup k
          (dictModify v (fun t => t.add_upstream_task u)
            (dictModify u (fun t => t.add_downstream_task v) d.tasks))
          = some tk' := hk'
      by_cases hkv2 : k = v
      · subst hkv2
        rw [dictLookup_dictModify_self] at hk'
        by_cases hku2 : k = u
        · subst hku2
          rw [dictLookup_dictModify_self] at hk'
          cases hlk : dictLookup k d.tasks with
          | none => rw [hlk] at hk'; cases hk'
          | some tk =>
              rw [hlk] at hk'
              simp only [Option.map_some'] at hk'
              have : tk' = (tk.add_downstream_task k).add_upstream_task k :=
                (Option.some.injEq _ _).mp hk'.symm
              subst this
              exact ⟨tk, rfl, by
                simp [Task.add_upstream_task, Task.add_downstream_task], by
                simp [Task.add_upstream_task, Task.add_downstream_task]⟩
        · rw [dictLookup_dictModify_ne _ _ hku2] at hk'
          cases hlk : dictLookup k d.tasks with
          | none => rw [hlk] at hk'; cases hk'
          | some tk =>
              rw [hlk] at hk'
              simp only [Option.map_some'] at hk'
              have : tk' = tk.add_upstream_task u :=
                (Option.some.injEq _ _).mp hk'.symm
              subst this
              exact ⟨tk, rfl, by simp [Task.add_upstream_task], by
                simp [Task.add_upstream_task, hku2]⟩
      · rw [dictLookup_dictModify_ne _ _ hkv2] at hk'
        by_cases hku2 : k = u
        · subst hku2
          rw [dictLookup_dictModify_self] at hk'
          cases hlk : dictLookup k d.tasks with
          | none => rw [hlk] at hk'; cases hk'
          | some tk =>
              rw [hlk] at hk'
              simp only [Option.map_some'] at hk'
              have : tk' = tk.add_downstream_task v :=
                (Option.some.injEq _ _).mp hk'.symm
              subst this
              exact ⟨tk, rfl, by simp [Task.add_downstream_task, hkv2], by
                simp [Task.add_downstream_task]⟩
        · rw [dictLookup_dictModify_ne _ _ hku2] at hk'
          exact ⟨tk', hk', by simp [hkv2], by simp [hku2]⟩
    · show dictKeys (dictModify v _ (dictModify u _ d.tasks)) = _
      rw [dictKeys_dictModify, dictKeys_dictModify]
  · rw [if_neg hg] at h
    cases h

/-- Value characterization for a non-COMPLETED `update_task_status`: every
entry keeps its edge sets (only the named task's status / timestamp
change). -/
lemma update_status_val {d d2 : DAG} {tid : Nat} {st : TaskStatus}
    {now : Nat} (hst : st ≠ TaskStatus.completed)
    (h : d.update_task_status tid st now = Except.ok d2) :
    (∀ k tk', dictLookup k d2.tasks = some tk' → ∃ tk,
      dictLookup k d.tasks = some tk ∧
      tk'.upstream_tasks = tk.upstream_tasks ∧
      tk'.downstream_tasks = tk.downstream_tasks) ∧
    dictKeys d2.tasks = dictKeys d.tasks := by
  unfold DAG.update_task_status at h
  cases hlk : dictLookup tid d.tasks with
  | none =>
      simp only [hlk] at h
      cases h
  | some t0 =>
      simp only [hlk] at h
      rw [if_neg hst] at h
      cases h
      constructor
      · intro k tk' hk'
        dsimp only at hk'
        by_cases hke : k = tid
        · subst hke
          rw [dictLookup_dictModify_self, hlk] at hk'
          simp only [Option.map_some'] at hk'
          have : tk' = t0.update_status st now :=
            (Option.some.injEq _ _).mp hk'.symm
          subst this
          exact ⟨t0, hlk, rfl, rfl⟩
        · rw [dictLookup_dictModify_ne _ _ hke] at hk'
          exact ⟨tk', hk', rfl, rfl⟩
      · exact dictKeys_dictModify _ _ _

/-- Symmetry and edge-presence are invariants of the COMPLETED-free,
fresh-id operation set. -/
lemma reachableNC_invariant (d : DAG) (h : ReachableNC d) :
    EdgeSymmetric d ∧ EdgesPresent d := by
  induction h with
  | init d h0 =>
      constructor
      · intro a b ta tb ha
        rw [h0] at ha
        cases ha
      · intro k tk hk
        rw [h0] at hk
        cases hk
  | add_task d t now hr hup hdn hfresh ih =>
      obtain ⟨hsym, hpres⟩ := ih
      have hlk : ∀ k, dictLookup k (DAG.add_task d t now).tasks
          = if k = t.id then some t else dictLookup k d.tasks :=
        fun k => dictLookup_insert_fresh t hfresh k
      have hnotmem : t.id ∉ dictKeys d.tasks := by
        intro hm
        have := (dictLookup_isSome_iff t.id d.tasks).mpr hm
        rw [hfresh] at this
        cases this
      have hkeys : ∀ x, x ∈ dictKeys d.tasks →
          x ∈ dictKeys (DAG.add_task d t now).tasks := by
        intro x hx
        rw [← dictLookup_isSome_iff] at hx ⊢
        rw [hlk]
        by_cases hxe : x = t.id
        · simp [hxe]
        · rw [if_neg hxe]
          exact hx
      constructor
      · intro a b ta tb ha hb
        rw [hlk] at ha hb
        by_cases hae : a = t.id <;> by_cases hbe : b = t.id
        · rw [if_pos hae] at ha
          rw [if_pos hbe] at hb
          cases ha
          cases hb
          rw [hup, hdn]
          simp
        · rw [if_pos hae] at ha
          rw [if_neg hbe] at hb
          cases ha
          rw [hdn]
          simp only [List.not_mem_nil, false_iff]
          intro hmem
          exact hnotmem (hae ▸ (hpres b tb hb).1 a hmem)
        · rw [if_neg hae] at ha
          rw [if_pos hbe] at hb
          cases hb
          rw [hup]
          simp only [List.not_mem_nil, iff_false]
          intro hmem
          exact hnotmem (hbe ▸ (hpres a ta ha).2 b hmem)
        · rw [if_neg hae] at ha
          rw [if_neg hbe] at hb
          exact hsym a b ta tb ha hb
      · intro k tk hk
        rw [hlk] at hk
        by_cases hke : k = t.id
        · rw [if_pos hke] at hk
          cases hk
          constructor
          · rw [hup]; intro x hx; cases hx
          · rw [hdn]; intro x hx; cases hx
        · rw [if_neg hke] at hk
          obtain ⟨h1, h2⟩ := hpres k tk hk
          exact ⟨fun x hx => hkeys x (h1 x hx),
            fun x hx => hkeys x (h2 x hx)⟩
  | add_dependency d d2 u v now hr hok ih =>
      obtain ⟨hsym, hpres⟩ := ih
      obtain ⟨hnone, hval, hkeys, hku, hkv⟩ := add_dependency_val hok
      constructor
      · intro a b ta' tb' ha' hb'
        obtain ⟨ta, ha, haup, hadn⟩ := hval a ta' ha'
        obtain ⟨tb, hb, hbup, hbdn⟩ := hval b tb' hb'
        rw [hadn, hbup]
        by_cases hau : a = u <;> by_cases hbv : b = v
        · rw [if_pos hau, if_pos hbv]
          exact iff_of_true (mem_pysetAdd.mpr (Or.inr hbv))
            (mem_pysetAdd.mpr (Or.inr hau))
        · rw [if_pos hau, if_neg hbv, mem_pysetAdd]
          simp only [hbv, or_false]
          exact hsym a b ta tb ha hb
        · rw [if_neg hau, if_pos hbv, mem_pysetAdd]
          simp only [hau, or_false]
          exact hsym a b ta tb ha hb
        · rw [if_neg hau, if_neg hbv]
          exact hsym a b ta tb ha hb
      · intro k tk' hk'
        obtain ⟨tk, hk, hkup, hkdn⟩ := hval k tk' hk'
        obtain ⟨h1, h2⟩ := hpres k tk hk
        rw [hkeys]
        constructor
        · rw [hkup]
          by_cases hkv2 : k = v
          · rw [if_pos hkv2]
            intro x hx
            rcases mem_pysetAdd.mp hx with hx2 | hx2
            · exact h1 x hx2
            · exact hx2 ▸ hku
          · rw [if_neg hkv2]
            exact h1
        · rw [hkdn]
          by_cases hku2 : k = u
          · rw [if_pos hku2]
            intro x hx
            rcases mem_pysetAdd.mp hx with hx2 | hx2
            · exact h2 x hx2
            · exact hx2 ▸ hkv
          · rw [if_neg hku2]
            exact h2
  | update_task_status d d2 tid st now hr hst hok ih =>
      obtain ⟨hsym, hpres⟩ := ih
      obtain ⟨hval, hkeys⟩ := update_status_val hst hok
      constructor
      · intro a b ta' tb' ha' hb'
        obtain ⟨ta, ha, haup, hadn⟩ := hval a ta' ha'
        obtain ⟨tb, hb, hbup, hbdn⟩ := hval b tb' hb'
        rw [hadn, hbup]
        exact hsym a b ta tb ha hb
      · intro k tk' hk'
        obtain ⟨tk, hk, hkup, hkdn⟩ := hval k tk' hk'
        rw [hkeys, hkup, hkdn]
        exact hpres k tk hk

/-- A two-task DAG (ids 1, 2) with the single dependency 1 → 2, built with
the DAG operations. -/
def c9Dag : DAG :=
  let d0 : DAG := { id := 200 }
  let d1 := (d0.add_task { id := 1 } 0).add_task { id := 2 } 0
  match d1.add_dependency 1 2 0 with
  | Except.ok d2 => d2
  | Except.error _ => d1

/-- `c9Dag` after `update_task_status(1, COMPLETED)`. -/
def c9Dag1 : DAG :=
  match c9Dag.update_task_status 1 TaskStatus.completed 1 with
  | Except.ok d2 => d2
  | Except.error _ => c9Dag

/-- Claim C9 is false as stated: `c9Dag1` is reachable via `add_task`,
`add_dependency` and `update_task_status`, yet its edges are not
symmetric — after task 1 completed, task 1 still lists task 2 downstream
while task 2 no longer lists task 1 upstream. -/
theorem C9_counterexample : Reachable c9Dag1 ∧ ¬ EdgeSymmetric c9Dag1 := by
  constructor
  · have r0 : Reachable ({ id := 200 } : DAG) := Reachable.init _ rfl
    have r1 := Reachable.add_task ({ id := 200 } : DAG) { id := 1 } 0 r0
      rfl rfl
    have r2 := Reachable.add_task _ { id := 2 } 0 r1 rfl rfl
    have r3 := Reachable.add_dependency _ c9Dag 1 2 0 r2 rfl
    exact Reachable.update_task_status c9Dag c9Dag1 1 TaskStatus.completed
      1 r3 rfl
  · intro hsym
    have h1 : dictLookup 1 c9Dag1.tasks
        = some { id := 1, status := TaskStatus.completed, updated_at := 1,
                 downstream_tasks := [2] } := by decide
    have h2 : dictLookup 2 c9Dag1.tasks = some { id := 2 } := by decide
    have hiff := hsym 1 2 _ _ h1 h2
    exact absurd (hiff.mp (by decide)) (by decide)

/-- Claim C9 as amended: edge symmetry holds in every DAG state reachable
via `add_task` (of a fresh task id), `add_dependency`, and
`update_task_status` with any status other than COMPLETED; the COMPLETED
transition removes the downstream task's upstream edge without removing
the matching downstream edge. -/
theorem C9_symmetry_invariant (d : DAG) (h : ReachableNC d) :
    EdgeSymmetric d :=
  (reachableNC_invariant d h).1

theorem C9_symmetry_invariant_witness : EdgeSymmetric c9Dag :=
  C9_symmetry_invariant c9Dag
    (ReachableNC.add_dependency _ c9Dag 1 2 0
      (ReachableNC.add_task _ { id := 2 } 0
        (ReachableNC.add_task ({ id := 200 } : DAG) { id := 1 } 0
          (ReachableNC.init _ rfl) rfl rfl (by decide))
        rfl rfl (by decide))
      rfl)

/-!
## Claim C7: handler selection

The fallback of `_get_handler_for_task` iterates `registered_handlers`
(a Python dict keyed by task type) in key-insertion order.  That order is
handler-registration order except when a later handler re-registers a task
type registered earlier: the later handler then occupies the earlier
type's position, so the "first-registered handler whose can_handle_task
returns true" description fails.  The unknown-type path always fails the
task with an error naming the type.
-/

/-- The executor obtained by registering the given handlers in order from
a fresh state. -/
def registryOf (hs : List TaskHandler) : ExecutorAgent :=
  hs.foldl ExecutorAgent.register_handler {}

/-- The claim's selection rule, after its own words: the registry entry
for the exact task type when its `can_handle_task` accepts; otherwise the
first handler in registration order whose `can_handle_task` accepts. -/
def specSelectHandler (hs : List TaskHandler) (task_type : String)
    (params : List (String × String)) : Option TaskHandler :=
  match dictLookup task_type (registryOf hs).registered_handlers with
  | some handler =>
      if handler.can_handle_task task_type params then some handler
      else hs.find? fun h => h.can_handle_task task_type params
  | none => hs.find? fun h => h.can_handle_task task_type params

/-- First-registered handler supporting only type `"a"`, accepting
nothing. -/
def c7H1 : TaskHandler :=
  { hid := 1, supported_task_types := ["a"],
    can_handle_task := fun _ _ => false }

/-- Second-registered handler supporting type `"b"`, accepting type
`"c"` dynamically. -/
def c7H2 : TaskHandler :=
  { hid := 2, supported_task_types := ["b"],
    can_handle_task := fun t _ => t == "c" }

/-- Third-registered handler re-registering type `"a"`, also accepting
type `"c"` dynamically. -/
def c7H3 : TaskHandler :=
  { hid := 3, supported_task_types := ["a"],
    can_handle_task := fun t _ => t == "c" }

/-- Claim C7 is false as stated: dispatching type `"c"` on the registry
built from `[c7H1, c7H2, c7H3]` selects handler 3 (the dict's key-insertion
order puts it in the slot of type `"a"`, first), while the claim's
first-registered rule selects handler 2. -/
theorem C7_counterexample :
    ((registryOf [c7H1, c7H2, c7H3]).get_handler_for_task "c" []).map
        TaskHandler.hid = some 3 ∧
      (specSelectHandler [c7H1, c7H2, c7H3] "c" []).map TaskHandler.hid
        = some 2 ∧ (3 : Nat) ≠ 2 := by
  refine ⟨rfl, rfl, by decide⟩

/-- Inserting a value at a key that already holds it leaves the dict
unchanged. -/
lemma dictInsert_self {k : κ} {v : α} {l : List (κ × α)}
    (h : dictLookup k l = some v) : dictInsert k v l = l := by
  induction l with
  | nil => cases h
  | cons p rest ih =>
      rcases p with ⟨k0, v0⟩
      have h2 : (if k0 = k then some v0 else dictLookup k rest) = some v := h
      by_cases h0 : k0 = k
      · rw [if_pos h0] at h2
        cases h2
        subst h0
        simp [dictInsert]
      · rw [if_neg h0] at h2
        simp [dictInsert, h0, ih h2]

/-- Inserting at a fresh key appends the binding. -/
lemma dictInsert_fresh {k : κ} (v : α) {l : List (κ × α)}
    (h : dictLookup k l = none) : dictInsert k v l = l ++ [(k, v)] := by
  induction l with
  | nil => rfl
  | cons p rest ih =>
      rcases p with ⟨k0, v0⟩
      have h0 : ¬ k0 = k := by
        intro he
        rw [dictLookup, if_pos he] at h
        cases h
      have hrest : dictLookup k rest = none := by
        rw [dictLookup, if_neg h0] at h
        exact h
      simp [dictInsert, h0, ih hrest]

/-- Lookup distributes over append, preferring the left list. -/
lemma dictLookup_append (k : κ) (l1 l2 : List (κ × α)) :
    dictLookup k (l1 ++ l2)
      = match dictLookup k l1 with
        | some v => some v
        | none => dictLookup k l2 := by
  induction l1 with
  | nil => rfl
  | cons p rest ih =>
      rcases p with ⟨k0, v0⟩
      by_cases h0 : k0 = k <;> simp [dictLookup, h0, ih]

/-- The registry component of the registration fold is the plain
`dictInsert` fold. -/
lemma register_handler_registry (h : TaskHandler) :
    ∀ (types : List String) (e : ExecutorAgent),
    (types.foldl
      (fun (e : ExecutorAgent) task_type =>
        { e with
          supported_task_types := pysetAdd e.supported_task_types task_type,
          registered_handlers :=
            dictInsert task_type h e.registered_handlers })
      e).registered_handlers
    = types.foldl (fun r task_type => dictInsert task_type h r)
        e.registered_handlers := by
  intro types
  induction types with
  | nil => intro e; rfl
  | cons t rest ih => intro e; exact ih _

/-- Folding `dictInsert` of one handler over its (partly fresh) supported
types appends a block of bindings all carrying that handler; the block is
non-empty when at least one type is fresh. -/
lemma foldl_dictInsert_block (ht : TaskHandler) :
    ∀ (types : List String) (reg : List (String × TaskHandler)),
    (∀ t ∈ types, dictLookup t reg = none ∨ dictLookup t reg = some ht) →
    ∃ block, types.foldl (fun r t => dictInsert t ht r) reg = reg ++ block ∧
      (∀ p ∈ block, (p : String × TaskHandler).2 = ht ∧ p.1 ∈ types) ∧
      ((∃ t ∈ types, dictLookup t reg = none) → block ≠ []) := by
  intro types
  induction types with
  | nil =>
      intro reg _
      refine ⟨[], by simp, by simp, ?_⟩
      rintro ⟨t, hmem, _⟩
      cases hmem
  | cons t0 rest ih =>
      intro reg hinv
      rcases hinv t0 (List.mem_cons_self _ _) with hf | hs
      · -- fresh head type: the binding is appended
        rw [List.foldl_cons, dictInsert_fresh ht hf]
        have hinv2 : ∀ t ∈ rest, dictLookup t (reg ++ [(t0, ht)]) = none
            ∨ dictLookup t (reg ++ [(t0, ht)]) = some ht := by
          intro t hmem
          rw [dictLookup_append]
          rcases hinv t (List.mem_cons_of_mem _ hmem) with h1 | h1
          · rw [h1]
            by_cases he : t0 = t
            · right
              simp [dictLookup, he]
            · left
              simp [dictLookup, he]
          · rw [h1]
            right
            rfl
        rcases ih (reg ++ [(t0, ht)]) hinv2 with ⟨block2, heq, hval, _⟩
        refine ⟨(t0, ht) :: block2, by rw [heq]; simp, ?_, ?_⟩
        · intro p hp
          rcases List.mem_cons.mp hp with hp | hp
          · rw [hp]
            exact ⟨rfl, List.mem_cons_self _ _⟩
          · exact ⟨(hval p hp).1, List.mem_cons_of_mem _ (hval p hp).2⟩
        · intro
          simp
      · -- the head type already maps to this handler: dict unchanged
        rw [List.foldl_cons, dictInsert_self hs]
        have hinv2 : ∀ t ∈ rest, dictLookup t reg = none
            ∨ dictLookup t reg = some ht :=
          fun t hmem => hinv t (List.mem_cons_of_mem _ hmem)
        rcases ih reg hinv2 with ⟨block2, heq, hval, hnonempty⟩
        refine ⟨block2, heq,
          fun p hp => ⟨(hval p hp).1, List.mem_cons_of_mem _ (hval p hp).2⟩,
          ?_⟩
        rintro ⟨t, hmem, hnone⟩
        rcases List.mem_cons.mp hmem with he | hm
        · subst he
          rw [hnone] at hs
          cases hs
        · exact hnonempty ⟨t, hm, hnone⟩

/-- Registering one handler whose supported types are all fresh appends a
non-empty block of bindings carrying that handler (provided it supports at
least one type). -/
lemma register_handler_block (e : ExecutorAgent) (h : TaskHandler)
    (hfresh : ∀ t ∈ h.supported_task_types,
      dictLookup t e.registered_handlers = none)
    (hne : h.supported_task_types ≠ []) :
    ∃ block, (e.register_handler h).registered_handlers
        = e.registered_handlers ++ block ∧
      (∀ p ∈ block, (p : String × TaskHandler).2 = h
        ∧ p.1 ∈ h.supported_task_types) ∧
      block ≠ [] := by
  have hreg : (e.register_handler h).registered_handlers
      = h.supported_task_types.foldl
          (fun r task_type => dictInsert task_type h r)
          e.registered_handlers := by
    unfold ExecutorAgent.register_handler
    exact register_handler_registry h h.supported_task_types e
  rcases foldl_dictInsert_block h h.supported_task_types
      e.registered_handlers
      (fun t hmem => Or.inl (hfresh t hmem)) with
    ⟨block, heq, hval, hnonempty⟩
  refine ⟨block, by rw [hreg, heq], hval, ?_⟩
  apply hnonempty
  cases hst : h.supported_task_types with
  | nil => exact absurd hst hne
  | cons t0 rest =>
      exact ⟨t0, List.mem_cons_self _ _,
        hfresh t0 (by rw [hst]; exact List.mem_cons_self _ _)⟩

/-- The handler found by scanning a registry in order (the value computed
by strategy 2 of `_get_handler_for_task`). -/
def valFind : List (String × TaskHandler) → (TaskHandler → Bool) →
    Option TaskHandler
  | [], _ => none
  | p :: rest, P => if P p.2 then some p.2 else valFind rest P

/-- Strategy 2 of `_get_handler_for_task` computes `valFind`. -/
lemma find_map_eq_valFind (reg : List (String × TaskHandler))
    (P : TaskHandler → Bool) :
    (reg.find? fun p => P p.2).map (fun p => p.2) = valFind reg P := by
  induction reg with
  | nil => rfl
  | cons q rest ih =>
      cases hq : P q.2 with
      | true => simp [valFind, List.find?, hq]
      | false => simp [valFind, List.find?, hq, ih]

lemma dictLookup_eq_none_of_forall {k : κ} {l : List (κ × α)}
    (h : ∀ p ∈ l, (p : κ × α).1 ≠ k) : dictLookup k l = none := by
  induction l with
  | nil => rfl
  | cons p rest ih =>
      rcases p with ⟨k0, v0⟩
      rw [dictLookup, if_neg (h (k0, v0) (List.mem_cons_self _ _))]
      exact ih fun q hq => h q (List.mem_cons_of_mem _ hq)

lemma valFind_append (l1 l2 : List (String × TaskHandler))
    (P : TaskHandler → Bool) :
    valFind (l1 ++ l2) P
      = match valFind l1 P with
        | some h => some h
        | none => valFind l2 P := by
  induction l1 with
  | nil => rfl
  | cons q rest ih =>
      cases hq : P q.2 with
      | true => simp [valFind, hq]
      | false => simp [valFind, hq, ih]

lemma valFind_block_pos {block : List (String × TaskHandler)}
    {h : TaskHandler} {P : TaskHandler → Bool}
    (hval : ∀ p ∈ block, (p : String × TaskHandler).2 = h)
    (hne : block ≠ []) (hP : P h = true) : valFind block P = some h := by
  cases block with
  | nil => exact absurd rfl hne
  | cons q rest =>
      have hq : q.2 = h := hval q (List.mem_cons_self _ _)
      rw [valFind, hq, if_pos hP]

lemma valFind_block_neg {block : List (String × TaskHandler)}
    {h : TaskHandler} {P : TaskHandler → Bool}
    (hval : ∀ p ∈ block, (p : String × TaskHandler).2 = h)
    (hP : P h = false) : valFind block P = none := by
  induction block with
  | nil => rfl
  | cons q rest ih =>
      have hq : q.2 = h := hval q (List.mem_cons_self _ _)
      rw [valFind, hq, hP, if_neg (by simp)]
      exact ih fun p hp => hval p (List.mem_cons_of_mem _ hp)

/-- With pairwise-disjoint, non-empty supported-type sets that are fresh
for the starting registry, the ordered registry scan agrees with the first
match over the handlers in registration order. -/
lemma valFind_fold (P : TaskHandler → Bool) :
    ∀ (hs : List TaskHandler) (e : ExecutorAgent),
    (∀ h ∈ hs, ∀ t ∈ h.supported_task_types,
      dictLookup t e.registered_handlers = none) →
    List.Pairwise (fun h1 h2 => ∀ t ∈ h1.supported_task_types,
      t ∉ h2.supported_task_types) hs →
    (∀ h ∈ hs, h.supported_task_types ≠ []) →
    valFind (hs.foldl ExecutorAgent.register_handler e).registered_handlers P
      = match valFind e.registered_handlers P with
        | some h => some h
        | none => hs.find? P := by
  intro hs
  induction hs with
  | nil =>
      intro e _ _ _
      rw [List.foldl_nil]
      cases hve : valFind e.registered_handlers P with
      | some h0 => rfl
      | none => rfl
  | cons h rest ih =>
      intro e hfresh hdisj hne
      rcases register_handler_block e h
          (hfresh h (List.mem_cons_self _ _))
          (hne h (List.mem_cons_self _ _)) with
        ⟨block, heq, hval, hbne⟩
      have hfresh2 : ∀ h2 ∈ rest, ∀ t ∈ h2.supported_task_types,
          dictLookup t (e.register_handler h).registered_handlers = none := by
        intro h2 hmem t hmemt
        rw [heq, dictLookup_append,
          hfresh h2 (List.mem_cons_of_mem _ hmem) t hmemt]
        refine dictLookup_eq_none_of_forall fun p hp hpk => ?_
        have hsup := (hval p hp).2
        rw [hpk] at hsup
        exact (List.pairwise_cons.mp hdisj).1 h2 hmem t hsup hmemt
      have hdisj2 := (List.pairwise_cons.mp hdisj).2
      have hne2 : ∀ h2 ∈ rest, h2.supported_task_types ≠ [] :=
        fun h2 hm => hne h2 (List.mem_cons_of_mem _ hm)
      rw [List.foldl_cons, ih (e.register_handler h) hfresh2 hdisj2 hne2]
      rw [heq, valFind_append]
      cases hve : valFind e.registered_handlers P with
      | some h0 => rfl
      | none =>
          cases hP : P h with
          | true =>
              rw [valFind_block_pos (fun p hp => (hval p hp).1) hbne hP]
              rw [List.find?_cons_of_pos _ hP]
          | false =>
              rw [valFind_block_neg (fun p hp => (hval p hp).1) hP]
              rw [List.find?_cons_of_neg _ (by simp [hP])]

/-- Claim C7 as amended: provided no two registered handlers share a
supported task type (and each supports at least one type), the executor
selects (1) the exact-type registry entry when its `can_handle_task`
accepts, else (2) the first-registered handler whose `can_handle_task`
accepts (without that proviso, the registry's key-insertion order governs
instead, as the counterexample shows); and whenever no handler is
selected, the claimed task is reported `failed` with an error string
ending in the unsupported task type — never silently dropped. -/
theorem C7_handler_selection_amended (hs : List TaskHandler)
    (task_type : String) (params : List (String × String))
    (hdisj : List.Pairwise (fun h1 h2 => ∀ t ∈ h1.supported_task_types,
      t ∉ h2.supported_task_types) hs)
    (hne : ∀ h ∈ hs, h.supported_task_types ≠ []) :
    (registryOf hs).get_handler_for_task task_type params
        = specSelectHandler hs task_type params
      ∧ ((registryOf hs).get_handler_for_task task_type params = none →
          (registryOf hs).dispatch_claimed_task task_type params
            = ExecOutcome.reportedFailed
                ("Error during execution: No handler available for task type: "
                  ++ task_type)) := by
  have hkey : valFind (registryOf hs).registered_handlers
      (fun h => h.can_handle_task task_type params)
      = hs.find? (fun h => h.can_handle_task task_type params) :=
    valFind_fold (fun h => h.can_handle_task task_type params) hs {}
      (fun _ _ _ _ => rfl) hdisj hne
  have hs2 : ((registryOf hs).registered_handlers.find?
        fun p => p.2.can_handle_task task_type params).map (fun p => p.2)
      = hs.find? (fun h => h.can_handle_task task_type params) :=
    (find_map_eq_valFind _ _).trans hkey
  constructor
  · unfold ExecutorAgent.get_handler_for_task specSelectHandler
    dsimp only
    rw [hs2]
  · intro hnone
    unfold ExecutorAgent.dispatch_claimed_task
    rw [hnone]

/-- A handler registry holding only an echo handler. -/
def c7Echo : TaskHandler :=
  { hid := 7, supported_task_types := ["echo"],
    can_handle_task := fun t _ => t == "echo" }

theorem C7_handler_selection_witness :
    (registryOf [c7Echo]).get_handler_for_task "unknown_type" []
        = specSelectHandler [c7Echo] "unknown_type" []
      ∧ (registryOf [c7Echo]).dispatch_claimed_task "unknown_type" []
        = ExecOutcome.reportedFailed
            ("Error during execution: No handler available for task type: "
              ++ "unknown_type") :=
  ⟨(C7_handler_selection_amended [c7Echo] "unknown_type" []
      (by simp) (by decide)).1,
    (C7_handler_selection_amended [c7Echo] "unknown_type" []
      (by simp) (by decide)).2 rfl⟩

/-!
## Claim C4: `validate` detects exactly the cycles

`DAG.validate` runs a grey/black depth-first search over the downstream
relation, following only downstream ids present in the task dict.  We
prove it returns `false` exactly when that relation has a cycle.
-/

/-- The edge relation `validate` traverses: `b` is a recorded downstream id
of `a` and (per the guard `downstream_id in self.tasks`) present in the
DAG. -/
def Edge (d : DAG) (a b : Nat) : Prop :=
  b ∈ d.succs a ∧ b ∈ dictKeys d.tasks

/-- A non-empty directed path along `Edge`. -/
inductive EdgePath (d : DAG) : Nat → Nat → Prop where
  | single {a b : Nat} : Edge d a b → EdgePath d a b
  | cons {a b c : Nat} : Edge d a b → EdgePath d b c → EdgePath d a c

/-- The downstream-edge relation over the DAG's tasks contains a cycle. -/
def HasCycle (d : DAG) : Prop := ∃ n, EdgePath d n n

lemma edge_src_mem {d : DAG} {a b : Nat} (h : Edge d a b) :
    a ∈ dictKeys d.tasks := by
  rcases h with ⟨hsucc, _⟩
  unfold DAG.succs at hsucc
  cases hlk : dictLookup a d.tasks with
  | none =>
      rw [hlk] at hsucc
      cases hsucc
  | some t =>
      refine (dictLookup_isSome_iff a _).mp ?_
      rw [hlk]
      rfl

lemma path_src_mem {d : DAG} {a b : Nat} (h : EdgePath d a b) :
    a ∈ dictKeys d.tasks := by
  cases h with
  | single e => exact edge_src_mem e
  | cons e _ => exact edge_src_mem e

lemma path_snoc {d : DAG} {a b c : Nat} (hp : EdgePath d a b)
    (he : Edge d b c) : EdgePath d a c := by
  induction hp with
  | single e => exact EdgePath.cons e (EdgePath.single he)
  | cons e _ ih => exact EdgePath.cons e (ih he)

/-- The grey stack of the DFS: consecutive entries are connected by an
edge from the older (deeper) entry to the newer one. -/
def Chain (d : DAG) : List Nat → Prop
  | [] => True
  | [g] => g ∈ dictKeys d.tasks
  | a :: b :: t => Edge d b a ∧ Chain d (b :: t)

/-- The node currently being visited is a successor of the stack top. -/
def ChainTop (d : DAG) (temp : List Nat) (node : Nat) : Prop :=
  match temp with
  | [] => True
  | g :: _ => Edge d g node

lemma chain_subset {d : DAG} :
    ∀ (temp : List Nat), Chain d temp → ∀ x ∈ temp, x ∈ dictKeys d.tasks := by
  intro temp
  induction temp with
  | nil =>
      intro _ x hx
      cases hx
  | cons a rest ih =>
      intro hc x hx
      cases rest with
      | nil =>
          rcases List.mem_cons.mp hx with he | hm
          · subst he
            exact hc
          · cases hm
      | cons b rest2 =>
          rcases hc with ⟨he, hc2⟩
          rcases List.mem_cons.mp hx with hxe | hxm
          · subst hxe
            exact he.2
          · exact ih hc2 x hxm

lemma chain_path {d : DAG} :
    ∀ (grest : List Nat) (g : Nat), Chain d (g :: grest) →
      ∀ n ∈ g :: grest, n = g ∨ EdgePath d n g := by
  intro grest
  induction grest with
  | nil =>
      intro g _ n hn
      rcases List.mem_cons.mp hn with he | hm
      · exact Or.inl he
      · cases hm
  | cons g2 rest ih =>
      intro g hc n hn
      rcases hc with ⟨he, hc2⟩
      rcases List.mem_cons.mp hn with hne | hnm
      · exact Or.inl hne
      · rcases ih g2 hc2 n hnm with he2 | hp
        · subst he2
          exact Or.inr (EdgePath.single he)
        · exact Or.inr (path_snoc hp he)

/-- Revisiting a node already on the grey stack closes a cycle. -/
lemma chain_cycle {d : DAG} {temp : List Nat} {node : Nat}
    (hc : Chain d temp) (ht : ChainTop d temp node) (hm : node ∈ temp) :
    HasCycle d := by
  cases temp with
  | nil => cases hm
  | cons g grest =>
      have ht2 : Edge d g node := ht
      rcases chain_path grest g hc node hm with he | hp
      · subst he
        exact ⟨node, EdgePath.single ht2⟩
      · exact ⟨node, path_snoc hp ht2⟩

/-- Edges out of the black set stay in the black set. -/
def BlackClosed (d : DAG) (V : List Nat) : Prop :=
  ∀ a ∈ V, ∀ b, Edge d a b → b ∈ V

/-- No cycle passes through a black node. -/
def BlackSafe (d : DAG) (V : List Nat) : Prop :=
  ∀ a ∈ V, ¬ EdgePath d a a

lemma closed_reach {d : DAG} {V : List Nat} (hcl : BlackClosed d V)
    {a b : Nat} (hp : EdgePath d a b) : a ∈ V → b ∈ V := by
  induction hp with
  | single e => intro ha; exact hcl _ ha _ e
  | cons e _ ih => intro ha; exact ih (hcl _ ha _ e)

/-- Postcondition of a `False` return of `has_cycle(node)`: the visited
set only grows, the node is now visited, newly visited nodes were not on
the grey stack, and the black invariants are preserved. -/
def AuxPost (d : DAG) (node : Nat) (visited temp vis2 : List Nat) : Prop :=
  visited ⊆ vis2 ∧ node ∈ vis2 ∧
  (∀ x ∈ vis2, x ∈ visited ∨ x ∉ temp) ∧
  (BlackClosed d visited → BlackSafe d visited →
    BlackClosed d vis2 ∧ BlackSafe d vis2)

/-- Postcondition of a `False` completion of the downstream loop: as
`AuxPost`, and every present downstream id of the list is now visited. -/
def ListPost (d : DAG) (l : List Nat) (visited temp vis2 : List Nat) :
    Prop :=
  visited ⊆ vis2 ∧
  (∀ x ∈ l, x ∈ dictKeys d.tasks → x ∈ vis2) ∧
  (∀ x ∈ vis2, x ∈ visited ∨ x ∉ temp) ∧
  (BlackClosed d visited → BlackSafe d visited →
    BlackClosed d vis2 ∧ BlackSafe d vis2)

/-- Full behavioral specification of `has_cycle(node)` at a given fuel. -/
def AuxStatement (d : DAG) (fuel : Nat) : Prop :=
  ∀ node visited temp, node ∈ dictKeys d.tasks → Chain d temp →
    ChainTop d temp node → temp.Nodup →
    (hasCycleAux d fuel node visited temp = none →
      fuel + temp.length ≤ (dictKeys d.tasks).length) ∧
    (∀ vis, hasCycleAux d fuel node visited temp = some (true, vis) →
      HasCycle d) ∧
    (∀ vis2, hasCycleAux d fuel node visited temp = some (false, vis2) →
      AuxPost d node visited temp vis2)

/-- Full behavioral specification of the downstream loop at a given
fuel. -/
def ListStatement (d : DAG) (fuel : Nat) : Prop :=
  ∀ (l visited : List Nat) (g : Nat) (grest : List Nat),
    Chain d (g :: grest) → (∀ x ∈ l, x ∈ d.succs g) →
    (g :: grest).Nodup →
    (hasCycleList d fuel l visited (g :: grest) = none →
      fuel + (g :: grest).length ≤ (dictKeys d.tasks).length) ∧
    (∀ vis, hasCycleList d fuel l visited (g :: grest) = some (true, vis) →
      HasCycle d) ∧
    (∀ vis2, hasCycleList d fuel l visited (g :: grest)
        = some (false, vis2) →
      ListPost d l visited (g :: grest) vis2)

lemma listStep (d : DAG) (fuel : Nat) (auxIH : AuxStatement d fuel) :
    ListStatement d fuel := by
  intro l
  induction l with
  | nil =>
      intro visited g grest hchain hsucc hnd
      unfold hasCycleList
      rw [hasCycleListF]
      refine ⟨fun h => (by cases h), fun vis h => (by simp at h),
        fun vis2 h => ?_⟩
      have hv : visited = vis2 := by
        have h2 := (Option.some.injEq _ _).mp h
        exact ((Prod.mk.injEq _ _ _ _).mp h2).2
      subst hv
      exact ⟨fun x hx => hx, fun x hx => (by cases hx),
        fun x hx => Or.inl hx, fun c s => ⟨c, s⟩⟩
  | cons down rest ih =>
      intro visited g grest hchain hsucc hnd
      unfold hasCycleList
      rw [hasCycleListF]
      by_cases hdk : (dictLookup down d.tasks).isSome
      · rw [if_pos hdk]
        have hdmem : down ∈ dictKeys d.tasks :=
          (dictLookup_isSome_iff _ _).mp hdk
        have hedge : Edge d g down :=
          ⟨hsucc down (List.mem_cons_self _ _), hdmem⟩
        obtain ⟨hnoneA, htrueA, hfalseA⟩ :=
          auxIH down visited (g :: grest) hdmem hchain hedge hnd
        cases hA : hasCycleAux d fuel down visited (g :: grest) with
        | none =>
            dsimp only
            exact ⟨fun _ => hnoneA hA, fun vis h => (by cases h),
              fun vis2 h => (by cases h)⟩
        | some pair =>
            rcases pair with ⟨b, vis⟩
            cases b with
            | true =>
                dsimp only
                exact ⟨fun h => (by cases h), fun vis0 _ => htrueA vis hA,
                  fun vis2 h => (by simp at h)⟩
            | false =>
                dsimp only
                obtain ⟨hpostsub, hpostmem, hpostq3, hpostpres⟩ :=
                  hfalseA vis hA
                obtain ⟨hnoneL, htrueL, hfalseL⟩ :=
                  ih vis g grest hchain
                    (fun x hx => hsucc x (List.mem_cons_of_mem _ hx)) hnd
                refine ⟨fun h => hnoneL h, fun vis0 h => htrueL vis0 h,
                  fun vis2 h => ?_⟩
                obtain ⟨hsub2, hsucc2, hq32, hpres2⟩ := hfalseL vis2 h
                refine ⟨fun x hx => hsub2 (hpostsub hx), ?_, ?_, ?_⟩
                · intro x hx hxk
                  rcases List.mem_cons.mp hx with he | hm
                  · subst he
                    exact hsub2 hpostmem
                  · exact hsucc2 x hm hxk
                · intro x hx
                  rcases hq32 x hx with h1 | h1
                  · rcases hpostq3 x h1 with h2 | h2
                    · exact Or.inl h2
                    · exact Or.inr h2
                  · exact Or.inr h1
                · intro hcl hsafe
                  obtain ⟨hcl1, hsafe1⟩ := hpostpres hcl hsafe
                  exact hpres2 hcl1 hsafe1
      · rw [if_neg hdk]
        obtain ⟨hnoneL, htrueL, hfalseL⟩ :=
          ih visited g grest hchain
            (fun x hx => hsucc x (List.mem_cons_of_mem _ hx)) hnd
        refine ⟨hnoneL, htrueL, fun vis2 h => ?_⟩
        obtain ⟨hsub2, hsucc2, hq32, hpres2⟩ := hfalseL vis2 h
        refine ⟨hsub2, ?_, hq32, hpres2⟩
        intro x hx hxk
        rcases List.mem_cons.mp hx with he | hm
        · subst he
          exact absurd ((dictLookup_isSome_iff _ _).mpr hxk) hdk
        · exact hsucc2 x hm hxk

lemma auxStep (d : DAG) (hk : (dictKeys d.tasks).Nodup) :
    ∀ fuel, AuxStatement d fuel := by
  intro fuel
  induction fuel with
  | zero =>
      intro node visited temp _ hchain _ hnd
      rw [hasCycleAux]
      refine ⟨fun _ => ?_, fun vis h => (by cases h),
        fun vis2 h => (by cases h)⟩
      have hsub : temp ⊆ dictKeys d.tasks := fun x hx =>
        chain_subset temp hchain x hx
      have := (List.Nodup.subperm hnd hsub).length_le
      omega
  | succ fuel ihAux =>
      intro node visited temp hnode hchain htop hnd
      have hlist := listStep d fuel ihAux
      rw [hasCycleAux]
      by_cases hmt : node ∈ temp
      · rw [if_pos hmt]
        exact ⟨fun h => (by cases h),
          fun vis _ => chain_cycle hchain htop hmt,
          fun vis2 h => (by simp at h)⟩
      · rw [if_neg hmt]
        by_cases hmv : node ∈ visited
        · rw [if_pos hmv]
          refine ⟨fun h => (by cases h), fun vis h => (by simp at h),
            fun vis2 h => ?_⟩
          have hv : visited = vis2 := by
            have h2 := (Option.some.injEq _ _).mp h
            exact ((Prod.mk.injEq _ _ _ _).mp h2).2
          subst hv
          exact ⟨fun x hx => hx, hmv, fun x hx => Or.inl hx,
            fun c s => ⟨c, s⟩⟩
        · rw [if_neg hmv]
          have hchain2 : Chain d (node :: temp) := by
            cases temp with
            | nil => exact hnode
            | cons g grest => exact ⟨htop, hchain⟩
          have hnd2 : (node :: temp).Nodup :=
            List.nodup_cons.mpr ⟨hmt, hnd⟩
          obtain ⟨hnoneL, htrueL, hfalseL⟩ :=
            hlist (d.succs node) visited node temp hchain2
              (fun x hx => hx) hnd2
          cases hL : hasCycleListF d (hasCycleAux d fuel) (d.succs node)
              visited (node :: temp) with
          | none =>
              dsimp only
              refine ⟨fun _ => ?_, fun vis h => (by cases h),
                fun vis2 h => (by cases h)⟩
              have := hnoneL hL
              simp only [List.length_cons] at this
              omega
          | some pair =>
              rcases pair with ⟨b, vis⟩
              cases b with
              | true =>
                  dsimp only
                  exact ⟨fun h => (by cases h),
                    fun vis0 _ => htrueL vis hL,
                    fun vis2 h => (by simp at h)⟩
              | false =>
                  dsimp only
                  obtain ⟨hsub, hsuccin, hq3, hpres⟩ := hfalseL vis hL
                  refine ⟨fun h => (by cases h), fun vis0 h => (by simp at h),
                    fun vis2 h => ?_⟩
                  have hv : node :: vis = vis2 := by
                    have h2 := (Option.some.injEq _ _).mp h
                    exact ((Prod.mk.injEq _ _ _ _).mp h2).2
                  subst hv
                  have hnodeNotVis : node ∉ vis := by
                    intro hmem
                    rcases hq3 node hmem with h1 | h1
                    · exact hmv h1
                    · exact h1 (List.mem_cons_self _ _)
                  refine ⟨fun x hx => List.mem_cons_of_mem _ (hsub hx),
                    List.mem_cons_self _ _, ?_, ?_⟩
                  · intro x hx
                    rcases List.mem_cons.mp hx with he | hm
                    · subst he
                      exact Or.inr hmt
                    · rcases hq3 x hm with h1 | h1
                      · exact Or.inl h1
                      · exact Or.inr fun hxm =>
                          h1 (List.mem_cons_of_mem _ hxm)
                  · intro hcl hsafe
                    obtain ⟨hclV, hsafeV⟩ := hpres hcl hsafe
                    constructor
                    · intro a ha b e
                      rcases List.mem_cons.mp ha with he | hm
                      · subst he
                        exact List.mem_cons_of_mem _
                          (hsuccin b e.1 e.2)
                      · exact List.mem_cons_of_mem _ (hclV a hm b e)
                    · intro a ha hpath
                      rcases List.mem_cons.mp ha with he | hm
                      · subst he
                        cases hpath with
                        | single e =>
                            exact hnodeNotVis (hsuccin a e.1 e.2)
                        | cons e p =>
                            exact hnodeNotVis
                              (closed_reach hclV p (hsuccin _ e.1 e.2))
                      · exact hsafeV a hm hpath

lemma validateAux_false_cycle (d : DAG) (hk : (dictKeys d.tasks).Nodup) :
    ∀ (l visited : List Nat), (∀ x ∈ l, x ∈ dictKeys d.tasks) →
      validateAux d l visited = false → HasCycle d := by
  intro l
  induction l with
  | nil =>
      intro visited _ h
      rw [validateAux] at h
      cases h
  | cons tid rest ih =>
      intro visited hmem h
      rw [validateAux] at h
      by_cases hv : tid ∈ visited
      · rw [if_pos hv] at h
        exact ih visited (fun x hx => hmem x (List.mem_cons_of_mem _ hx)) h
      · rw [if_neg hv] at h
        obtain ⟨hnoneA, htrueA, hfalseA⟩ :=
          auxStep d hk (d.tasks.length + 1) tid visited []
            (hmem tid (List.mem_cons_self _ _)) trivial trivial
            List.nodup_nil
        cases hA : hasCycleAux d (d.tasks.length + 1) tid visited [] with
        | none =>
            exfalso
            have hb := hnoneA hA
            have hlen : (dictKeys d.tasks).length = d.tasks.length :=
              List.length_map _ _
            simp only [List.length_nil] at hb
            omega
        | some pair =>
            rcases pair with ⟨b, vis⟩
            cases b with
            | true => exact htrueA vis hA
            | false =>
                rw [hA] at h
                dsimp only at h
                exact ih vis
                  (fun x hx => hmem x (List.mem_cons_of_mem _ hx)) h

lemma validateAux_true_safe (d : DAG) (hk : (dictKeys d.tasks).Nodup) :
    ∀ (l visited : List Nat), (∀ x ∈ l, x ∈ dictKeys d.tasks) →
      BlackClosed d visited → BlackSafe d visited →
      validateAux d l visited = true → ∀ n ∈ l, ¬ EdgePath d n n := by
  intro l
  induction l with
  | nil =>
      intro visited _ _ _ _ n hn
      cases hn
  | cons tid rest ih =>
      intro visited hmem hcl hsafe h n hn
      rw [validateAux] at h
      by_cases hv : tid ∈ visited
      · rw [if_pos hv] at h
        rcases List.mem_cons.mp hn with he | hm
        · subst he
          exact hsafe n hv
        · exact ih visited
            (fun x hx => hmem x (List.mem_cons_of_mem _ hx))
            hcl hsafe h n hm
      · rw [if_neg hv] at h
        obtain ⟨hnoneA, htrueA, hfalseA⟩ :=
          auxStep d hk (d.tasks.length + 1) tid visited []
            (hmem tid (List.mem_cons_self _ _)) trivial trivial
            List.nodup_nil
        cases hA : hasCycleAux d (d.tasks.length + 1) tid visited [] with
        | none =>
            rw [hA] at h
            dsimp only at h
            cases h
        | some pair =>
            rcases pair with ⟨b, vis⟩
            cases b with
            | true =>
                rw [hA] at h
                dsimp only at h
                cases h
            | false =>
                rw [hA] at h
                dsimp only at h
                obtain ⟨hsub, hmemv, hq3, hpres⟩ := hfalseA vis hA
                obtain ⟨hcl2, hsafe2⟩ := hpres hcl hsafe
                rcases List.mem_cons.mp hn with he | hm
                · subst he
                  exact hsafe2 n hmemv
                · exact ih vis
                    (fun x hx => hmem x (List.mem_cons_of_mem _ hx))
                    hcl2 hsafe2 h n hm

/-- Claim C4: for every DAG (its task dict, like every Python dict, has
duplicate-free keys), `validate()` returns false if and only if the
downstream-edge relation over the DAG's tasks contains a cycle. -/
theorem C4_validate_false_iff_cycle (d : DAG)
    (hk : (dictKeys d.tasks).Nodup) :
    d.validate = false ↔ HasCycle d := by
  constructor
  · intro h
    exact validateAux_false_cycle d hk (dictKeys d.tasks) []
      (fun x hx => hx) h
  · intro hcyc
    by_contra h
    have hv : d.validate = true := by
      cases hval : d.validate
      · exact absurd hval h
      · rfl
    rcases hcyc with ⟨n, hp⟩
    exact validateAux_true_safe d hk (dictKeys d.tasks) []
      (fun x hx => hx)
      (fun a ha => absurd ha (List.not_mem_nil a))
      (fun a ha => absurd ha (List.not_mem_nil a))
      hv n (path_src_mem hp) hp

/-- A two-task DAG with edges 1 → 2 and 2 → 1 (a cycle). -/
def c4Dag : DAG :=
  let d0 : DAG := { id := 300 }
  let d1 := (d0.add_task { id := 1 } 0).add_task { id := 2 } 0
  let d2 :=
    match d1.add_dependency 1 2 0 with
    | Except.ok x => x
    | Except.error _ => d1
  match d2.add_dependency 2 1 0 with
  | Except.ok x => x
  | Except.error _ => d2

theorem C4_validate_false_iff_cycle_witness :
    (dictKeys c4Dag.tasks).Nodup ∧ HasCycle c4Dag :=
  ⟨by decide, (C4_validate_false_iff_cycle c4Dag (by decide)).mp (by decide)⟩
